import Mathlib

set_option maxHeartbeats 1000000

/-! Shallow embedding, in Lean, of the swc front end character stream
(src/ecmascript/parser/src/lexer/input.rs) and of the JSX-to-call
desugaring pass (src/ecmascript/transforms/src/react/jsx/mod.rs),
together with proofs about them.  Machine integers (BytePos is u32 in the
source) are modelled as Nat with explicit reduction modulo 2^32 where the
source performs u32 arithmetic.  Panics (unreachable!, unimplemented!,
Option::unwrap) are modelled by an Except error. -/

/-- Modulus of u32 arithmetic; byte positions are u32 in the source. -/
def u32Mod : Nat := 4294967296

/-- UTF-8 byte width of a codepoint, as char::len_utf8 computes it. -/
def utf8Len (c : Char) : Nat :=
  if c.toNat < 128 then 1
  else if c.toNat < 2048 then 2
  else if c.toNat < 65536 then 3
  else 4

/-- Byte length of the first k codepoints of a buffer: the byte index that
str::char_indices reports for codepoint number k. -/
def utf8Bytes (src : List Char) (k : Nat) : Nat :=
  ((src.take k).map utf8Len).sum

/-- Fatal conditions of the embedded code: panics raised by unreachable!,
unimplemented! and Option::unwrap in the source. -/
inductive Fatal
  | panicked (msg : String)
  | unimplemented (msg : String)
deriving DecidableEq

/-- FileMapInput from the source: an iterator over the codepoints of one
source file, yielding (BytePos, codepoint) pairs offset by the file's
start position.  The CharIndices iterator state is modelled by the count
idx of codepoints already yielded; the byte index the real iterator would
report for the next codepoint is utf8Bytes src idx. -/
structure FileMapInput where
  start_pos : Nat
  src : List Char
  idx : Nat
deriving DecidableEq

/-- Iterator::next for FileMapInput: the next (position, codepoint) pair,
position computed as the char_indices byte index cast to u32 plus the
start position, in u32 arithmetic. -/
def FileMapInput.next (f : FileMapInput) : Option (Nat × Char) × FileMapInput :=
  match f.src[f.idx]? with
  | some c =>
    (some ((utf8Bytes f.src f.idx + f.start_pos) % u32Mod, c), { f with idx := f.idx + 1 })
  | none => (none, f)

/-- Input::peek for FileMapInput: clone the iterator and take item 0. -/
def FileMapInput.peek (f : FileMapInput) : Option (Nat × Char) := f.next.1

/-- Input::peek_ahead for FileMapInput: clone the iterator and take item 1. -/
def FileMapInput.peek_ahead (f : FileMapInput) : Option (Nat × Char) := f.next.2.next.1

/-- LexerInput from the source: one optionally buffered (position,
codepoint) pair, the position just after the last consumed codepoint, and
the underlying input. -/
structure LexerInput where
  cur : Option (Nat × Char)
  last_pos : Nat
  input : FileMapInput
deriving DecidableEq

/-- LexerInput::new. -/
def LexerInput.new (input : FileMapInput) : LexerInput :=
  { input, last_pos := 0, cur := none }

/-- LexerInput::bump: consume the buffered codepoint, set last_pos just
after it, and refill the buffer from the input; panics when nothing is
buffered. -/
def LexerInput.bump (s : LexerInput) : Except Fatal LexerInput :=
  match s.cur with
  | none => .error (.panicked "bump is called without knowing current character")
  | some (p, prev_c) =>
    let pos := (p + utf8Len prev_c) % u32Mod
    let (nxt, input) := s.input.next
    .ok { cur := nxt, last_pos := pos, input }

/-- LexerInput::peek (value only: the source implementation clones the
underlying iterator and mutates nothing). -/
def LexerInput.peek (s : LexerInput) : Option Char := s.input.peek.map (·.2)

/-- LexerInput::peek_ahead (value only, same remark as peek). -/
def LexerInput.peek_ahead (s : LexerInput) : Option Char := s.input.peek_ahead.map (·.2)

/-- LexerInput::current: return the buffered codepoint, lazily fetching
one from the input when none is buffered. -/
def LexerInput.current (s : LexerInput) : Option Char × LexerInput :=
  match s.cur with
  | some (_, c) => (some c, s)
  | none =>
    let (nxt, input) := s.input.next
    (nxt.map (·.2), { s with cur := nxt, input })

/-- LexerInput::cur_pos: first current(), then the buffered position, or
last_pos when nothing could be buffered. -/
def LexerInput.cur_pos (s : LexerInput) : Nat × LexerInput :=
  let s1 := s.current.2
  ((s1.cur.map (·.1)).getD s1.last_pos, s1)

/-- One legal advance of the stream, as the lexer performs it: make sure a
codepoint is buffered via current(), then bump(). -/
def LexerInput.advance (s : LexerInput) : Except Fatal LexerInput := s.current.2.bump

/-- n legal advances in sequence. -/
def advanceN : Nat → LexerInput → Except Fatal LexerInput
  | 0, s => .ok s
  | n + 1, s => do advanceN n (← s.advance)

/-- A fresh character stream over a source buffer with a start offset. -/
def mkLexer (src : List Char) (start : Nat) : LexerInput :=
  LexerInput.new ⟨start, src, 0⟩

/-- Number of codepoints the stream has consumed (handed out via bump):
the input iterator position minus the one codepoint sitting in the buffer. -/
def consumedCount (s : LexerInput) : Nat :=
  s.input.idx - (if s.cur.isSome then 1 else 0)

/-- Well-formedness of a lexer stream state: every state reachable from
mkLexer by current/bump/cur_pos satisfies it, provided the whole source
span fits in u32 (true of real swc source maps).  It records that the
buffered pair is the codepoint just before the iterator position with its
exact byte position, and that last_pos is the byte position just after
the consumed prefix. -/
structure WfL (s : LexerInput) : Prop where
  idx_le : s.input.idx ≤ s.input.src.length
  no_overflow : s.input.start_pos + utf8Bytes s.input.src s.input.src.length < u32Mod
  cur_some : ∀ p c, s.cur = some (p, c) →
    1 ≤ s.input.idx ∧ s.input.src[s.input.idx - 1]? = some c ∧
      p = s.input.start_pos + utf8Bytes s.input.src (s.input.idx - 1)
  cur_none : s.cur = none → s.input.idx = 0 ∨ s.input.idx = s.input.src.length
  last_ge : 1 ≤ consumedCount s →
    s.last_pos = s.input.start_pos + utf8Bytes s.input.src (consumedCount s)
  last_zero : consumedCount s = 0 → s.last_pos = 0

theorem utf8Len_pos (c : Char) : 0 < utf8Len c := by
  unfold utf8Len; split <;> [skip; split <;> [skip; split]] <;> norm_num

theorem utf8Bytes_zero (src : List Char) : utf8Bytes src 0 = 0 := rfl

theorem utf8Bytes_succ {src : List Char} {k : Nat} {c : Char} (h : src[k]? = some c) :
    utf8Bytes src (k + 1) = utf8Bytes src k + utf8Len c := by
  unfold utf8Bytes
  rw [List.take_succ, h]
  simp

theorem utf8Bytes_succ_none {src : List Char} {k : Nat} (h : src[k]? = none) :
    utf8Bytes src (k + 1) = utf8Bytes src k := by
  unfold utf8Bytes
  rw [List.take_succ, h]
  simp

theorem utf8Bytes_le_succ (src : List Char) (k : Nat) :
    utf8Bytes src k ≤ utf8Bytes src (k + 1) := by
  cases h : src[k]? with
  | some c => rw [utf8Bytes_succ h]; exact Nat.le_add_right _ _
  | none => rw [utf8Bytes_succ_none h]

theorem utf8Bytes_mono (src : List Char) {j k : Nat} (h : j ≤ k) :
    utf8Bytes src j ≤ utf8Bytes src k := by
  induction k with
  | zero => simp_all
  | succ k ih =>
    rcases Nat.lt_or_ge j (k + 1) with hl | hg
    · exact le_trans (ih (Nat.lt_succ_iff.mp hl)) (utf8Bytes_le_succ src k)
    · have : j = k + 1 := le_antisymm h hg
      subst this; exact le_rfl

theorem consumed_le_length {s : LexerInput} (hw : WfL s) :
    consumedCount s ≤ s.input.src.length := by
  have := hw.idx_le
  unfold consumedCount
  omega

/-- A fresh stream over a source fitting the u32 position space is well formed. -/
theorem wfL_mkLexer (src : List Char) (start : Nat)
    (h : start + utf8Bytes src src.length < u32Mod) : WfL (mkLexer src start) := by
  refine ⟨Nat.zero_le _, h, ?_, fun _ => Or.inl rfl, ?_, fun _ => rfl⟩
  · intro p c hsome
    simp [mkLexer, LexerInput.new] at hsome
  · intro h1
    simp [mkLexer, LexerInput.new, consumedCount] at h1

/-- current() preserves well-formedness and changes neither last_pos nor
the count of consumed codepoints. -/
theorem wfL_current {s : LexerInput} (hw : WfL s) :
    WfL s.current.2 ∧ s.current.2.last_pos = s.last_pos ∧
      consumedCount s.current.2 = consumedCount s := by
  match hc : s.cur with
  | some (p, c) =>
    have hcurr : s.current.2 = s := by simp [LexerInput.current, hc]
    rw [hcurr]
    exact ⟨hw, rfl, rfl⟩
  | none =>
    match hval : s.input.src[s.input.idx]? with
    | some c =>
      have hlt : s.input.idx < s.input.src.length := by
        by_contra hge
        rw [List.getElem?_eq_none (by omega)] at hval
        exact Option.noConfusion hval
      have hidx0 : s.input.idx = 0 := by
        rcases hw.cur_none hc with h0 | hl
        · exact h0
        · omega
      have hcons0 : consumedCount s = 0 := by
        simp [consumedCount, hc, hidx0]
      have hs2 : s.current.2 =
          ⟨some ((utf8Bytes s.input.src s.input.idx + s.input.start_pos) % u32Mod, c),
            s.last_pos, ⟨s.input.start_pos, s.input.src, s.input.idx + 1⟩⟩ := by
        simp only [LexerInput.current, hc, FileMapInput.next, hval]
      have hstartlt : s.input.start_pos < u32Mod := by
        have := hw.no_overflow; omega
      rw [hs2]
      refine ⟨⟨by simpa using hlt, hw.no_overflow, ?_, ?_, ?_, ?_⟩, rfl, ?_⟩
      · intro p' c' hsome
        simp only [Option.some.injEq, Prod.mk.injEq] at hsome
        obtain ⟨hp', hc'⟩ := hsome
        subst hp'
        subst hc'
        refine ⟨Nat.succ_le_succ (Nat.zero_le _), by simpa using hval, ?_⟩
        rw [hidx0]
        simp [utf8Bytes_zero, Nat.mod_eq_of_lt hstartlt]
      · intro hnone
        exact Option.noConfusion hnone
      · intro hge
        simp [consumedCount, hidx0] at hge
      · intro _
        exact hw.last_zero hcons0
      · simp [consumedCount, hc, hidx0]
    | none =>
      have hs2 : s.current.2 = s := by
        cases s with
        | mk cur lp inp =>
          simp only at hc
          subst hc
          simp [LexerInput.current, FileMapInput.next, hval]
      rw [hs2]
      exact ⟨hw, rfl, rfl⟩

/-- C7: with a codepoint buffered, bump succeeds, consumes exactly one
codepoint, sets the recorded position to the previous position plus the
UTF-8 byte width of the consumed codepoint, and any newly buffered
codepoint sits exactly at that position; widths are positive, so the
advance-derived positions of successive legal advances strictly increase
by exactly the byte width of each consumed codepoint. -/
theorem claim_c7_bump (s : LexerInput) (p : Nat) (c : Char)
    (hw : WfL s) (hc : s.cur = some (p, c)) :
    ∃ s', s.bump = .ok s' ∧
      s'.last_pos = p + utf8Len c ∧
      consumedCount s' = consumedCount s + 1 ∧
      0 < utf8Len c ∧
      (∀ p' c', s'.cur = some (p', c') → p' = p + utf8Len c) ∧
      WfL s' := by
  obtain ⟨h1, h2, h3⟩ := hw.cur_some p c hc
  have hidx := hw.idx_le
  have hov := hw.no_overflow
  have hbe : utf8Bytes s.input.src s.input.idx =
      utf8Bytes s.input.src (s.input.idx - 1) + utf8Len c := by
    have hstep := @utf8Bytes_succ s.input.src _ _ h2
    have heq : s.input.idx - 1 + 1 = s.input.idx := by omega
    rwa [heq] at hstep
  have hplen : p + utf8Len c = s.input.start_pos + utf8Bytes s.input.src s.input.idx := by
    rw [hbe, h3]; ring
  have hlt : s.input.start_pos + utf8Bytes s.input.src s.input.idx < u32Mod :=
    Nat.lt_of_le_of_lt (Nat.add_le_add_left (utf8Bytes_mono _ hidx) _) hov
  have hmod : (p + utf8Len c) % u32Mod = p + utf8Len c :=
    Nat.mod_eq_of_lt (hplen ▸ hlt)
  have hccs : consumedCount s = s.input.idx - 1 := by
    simp [consumedCount, hc]
  match hval : s.input.src[s.input.idx]? with
  | some c' =>
    have hltlen : s.input.idx < s.input.src.length := by
      by_contra hge
      rw [List.getElem?_eq_none (by omega)] at hval
      exact Option.noConfusion hval
    have hstart : (utf8Bytes s.input.src s.input.idx + s.input.start_pos) % u32Mod =
        s.input.start_pos + utf8Bytes s.input.src s.input.idx := by
      rw [Nat.add_comm]; exact Nat.mod_eq_of_lt hlt
    have hbump : s.bump = .ok
        ⟨some ((utf8Bytes s.input.src s.input.idx + s.input.start_pos) % u32Mod, c'),
          (p + utf8Len c) % u32Mod,
          ⟨s.input.start_pos, s.input.src, s.input.idx + 1⟩⟩ := by
      simp only [LexerInput.bump, hc, FileMapInput.next, hval]
    have hccs' : consumedCount
        ⟨some ((utf8Bytes s.input.src s.input.idx + s.input.start_pos) % u32Mod, c'),
          (p + utf8Len c) % u32Mod,
          ⟨s.input.start_pos, s.input.src, s.input.idx + 1⟩⟩ = s.input.idx := by
      simp [consumedCount]
    refine ⟨_, hbump, hmod, ?_, utf8Len_pos c, ?_, ?_⟩
    · rw [hccs', hccs]
      omega
    · intro p' c'' hsome
      simp only [Option.some.injEq, Prod.mk.injEq] at hsome
      rw [← hsome.1, hstart, hplen]
    · refine ⟨by simpa using hltlen, hov, ?_, ?_, ?_, ?_⟩
      · intro p' c'' hsome
        simp only [Option.some.injEq, Prod.mk.injEq] at hsome
        obtain ⟨hp', hc''⟩ := hsome
        subst hp'
        subst hc''
        refine ⟨Nat.succ_le_succ (Nat.zero_le _), by simpa using hval, by simpa using hstart⟩
      · intro hnone
        exact Option.noConfusion hnone
      · intro hge
        rw [hccs']
        simp only
        rw [hmod, hplen]
      · intro h0
        rw [hccs'] at h0
        omega
  | none =>
    have hgelen : s.input.src.length ≤ s.input.idx := by
      by_contra hlt2
      rw [List.getElem?_eq_getElem (by omega)] at hval
      exact Option.noConfusion hval
    have hidxlen : s.input.idx = s.input.src.length := le_antisymm hidx hgelen
    have hbump : s.bump = .ok ⟨none, (p + utf8Len c) % u32Mod, s.input⟩ := by
      simp only [LexerInput.bump, hc, FileMapInput.next, hval]
    have hccs' : consumedCount ⟨none, (p + utf8Len c) % u32Mod, s.input⟩ = s.input.idx := by
      simp [consumedCount]
    refine ⟨_, hbump, hmod, ?_, utf8Len_pos c, ?_, ?_⟩
    · rw [hccs', hccs]
      omega
    · intro p' c'' hsome
      exact Option.noConfusion hsome
    · refine ⟨hidx, hov, ?_, fun _ => Or.inr hidxlen, ?_, ?_⟩
      · intro p' c'' hsome
        exact Option.noConfusion hsome
      · intro hge
        rw [hccs']
        simp only
        rw [hmod, hplen]
      · intro h0
        rw [hccs'] at h0
        omega

/-- C8: cur_pos returns the byte position of the (possibly just fetched)
buffered codepoint, and falls back to last_pos when the stream is
exhausted; last_pos is the byte position immediately after the most
recently consumed codepoint (its position plus its UTF-8 byte width). -/
theorem claim_c8_positions (s : LexerInput) (hw : WfL s) :
    (∀ p c, s.current.2.cur = some (p, c) → s.cur_pos.1 = p) ∧
    (s.current.2.cur = none → s.cur_pos.1 = s.last_pos) ∧
    (1 ≤ consumedCount s →
      ∃ ch, s.input.src[consumedCount s - 1]? = some ch ∧
        s.last_pos =
          (s.input.start_pos + utf8Bytes s.input.src (consumedCount s - 1)) + utf8Len ch) := by
  have hlp := (wfL_current hw).2.1
  refine ⟨?_, ?_, ?_⟩
  · intro p c hsome
    unfold LexerInput.cur_pos
    simp [hsome]
  · intro hnone
    unfold LexerInput.cur_pos
    simp [hnone, hlp]
  · intro hge
    have hcle : consumedCount s ≤ s.input.src.length := consumed_le_length hw
    have hlt : consumedCount s - 1 < s.input.src.length := by omega
    refine ⟨s.input.src[consumedCount s - 1], List.getElem?_eq_getElem hlt, ?_⟩
    have hsucc := @utf8Bytes_succ s.input.src _ _ (List.getElem?_eq_getElem hlt)
    have heq : consumedCount s - 1 + 1 = consumedCount s := by omega
    rw [heq] at hsucc
    rw [hw.last_ge hge, hsucc]
    ring

/-- The stream state reached after k legal advances from a fresh stream
(for 1 ≤ k ≤ source length): codepoint number k is buffered when it
exists, and positions follow the UTF-8 byte prefix lengths. -/
def stateAfter (src : List Char) (start k : Nat) : LexerInput :=
  { cur := src[k]?.map fun c => ((start + utf8Bytes src k) % u32Mod, c),
    last_pos := (start + utf8Bytes src k) % u32Mod,
    input := ⟨start, src, min (k + 1) src.length⟩ }

theorem fatal_bind_ok {α β : Type} (a : α) (f : α → Except Fatal β) :
    (Except.ok a : Except Fatal α) >>= f = f a := rfl

theorem fatal_bind_error {α β : Type} (e : Fatal) (f : α → Except Fatal β) :
    (Except.error e : Except Fatal α) >>= f = .error e := rfl

theorem fatal_dotbind_ok {α β : Type} (a : α) (f : α → Except Fatal β) :
    (Except.ok a : Except Fatal α).bind f = f a := rfl

theorem fatal_dotbind_error {α β : Type} (e : Fatal) (f : α → Except Fatal β) :
    (Except.error e : Except Fatal α).bind f = .error e := rfl

theorem advanceN_succ (n : Nat) (s : LexerInput) :
    advanceN (n + 1) s = (advanceN n s).bind LexerInput.advance := by
  induction n generalizing s with
  | zero =>
    cases h : s.advance <;>
      simp [advanceN, h, fatal_bind_ok, fatal_bind_error, fatal_dotbind_ok, fatal_dotbind_error]
  | succ n ih =>
    cases h : s.advance with
    | ok s1 =>
      have h1 : advanceN (n + 1 + 1) s = advanceN (n + 1) s1 := by
        simp [advanceN, h, fatal_bind_ok]
      have h2 : advanceN (n + 1) s = advanceN n s1 := by
        simp [advanceN, h, fatal_bind_ok]
      rw [h1, h2, ih]
    | error e =>
      have h1 : advanceN (n + 1 + 1) s = .error e := by
        simp [advanceN, h, fatal_bind_error]
      have h2 : advanceN (n + 1) s = .error e := by
        simp [advanceN, h, fatal_bind_error]
      rw [h1, h2]
      rfl

theorem bump_fromState (src : List Char) (start k : Nat) (c : Char) (s : LexerInput)
    (hcur : s.cur = some ((start + utf8Bytes src k) % u32Mod, c))
    (hinp : s.input = ⟨start, src, k + 1⟩)
    (hk : src[k]? = some c) (hle : k + 1 ≤ src.length) :
    s.bump = .ok (stateAfter src start (k + 1)) := by
  have hsucc := @utf8Bytes_succ src _ _ hk
  have hpos : ((start + utf8Bytes src k) % u32Mod + utf8Len c) % u32Mod =
      (start + utf8Bytes src (k + 1)) % u32Mod := by
    rw [Nat.mod_add_mod, hsucc, Nat.add_assoc]
  unfold LexerInput.bump
  rw [hcur, hinp]
  cases hv : src[k + 1]? with
  | some c' =>
    have hlt2 : k + 1 < src.length := by
      by_contra hge
      rw [List.getElem?_eq_none (by omega)] at hv
      exact Option.noConfusion hv
    simp only [FileMapInput.next, hv, stateAfter, Option.map]
    rw [Nat.min_eq_left (show k + 1 + 1 ≤ src.length by omega), hpos,
      Nat.add_comm (utf8Bytes src (k + 1)) start]
  | none =>
    have hlen : src.length = k + 1 := by
      by_contra hne
      rw [List.getElem?_eq_getElem (by omega)] at hv
      exact Option.noConfusion hv
    simp only [FileMapInput.next, hv, stateAfter, Option.map]
    rw [hlen, Nat.min_eq_right (by omega), hpos]

theorem advance_mkLexer (src : List Char) (start : Nat) (h1 : 1 ≤ src.length) :
    (mkLexer src start).advance = .ok (stateAfter src start 1) := by
  obtain ⟨c0, hc0⟩ : ∃ c, src[0]? = some c :=
    ⟨_, List.getElem?_eq_getElem (by omega)⟩
  have hcur2 : (mkLexer src start).current.2 =
      ⟨some ((utf8Bytes src 0 + start) % u32Mod, c0), 0, ⟨start, src, 1⟩⟩ := by
    simp [mkLexer, LexerInput.new, LexerInput.current, FileMapInput.next, hc0]
  unfold LexerInput.advance
  rw [hcur2]
  exact bump_fromState src start 0 c0 _
    (by simp [utf8Bytes_zero, Nat.add_comm]) rfl hc0 (by omega)

theorem advanceN_mkLexer (src : List Char) (start : Nat) :
    ∀ k, 1 ≤ k → k ≤ src.length →
      advanceN k (mkLexer src start) = .ok (stateAfter src start k) := by
  intro k
  induction k with
  | zero => intro h _; exact absurd h (by omega)
  | succ k ih =>
    intro _ hle
    rcases Nat.eq_zero_or_pos k with hk0 | hkpos
    · subst hk0
      rw [advanceN_succ]
      have h0 : advanceN 0 (mkLexer src start) = .ok (mkLexer src start) := rfl
      rw [h0]
      show (mkLexer src start).advance = _
      exact advance_mkLexer src start (by omega)
    · rw [advanceN_succ, ih hkpos (by omega)]
      show (stateAfter src start k).advance = _
      have hklt : k < src.length := by omega
      obtain ⟨ck, hck⟩ : ∃ c, src[k]? = some c :=
        ⟨_, List.getElem?_eq_getElem hklt⟩
      have hcur : (stateAfter src start k).cur =
          some ((start + utf8Bytes src k) % u32Mod, ck) := by
        simp [stateAfter, hck]
      have hcs : (stateAfter src start k).current.2 = stateAfter src start k := by
        simp [LexerInput.current, hcur]
      unfold LexerInput.advance
      rw [hcs]
      exact bump_fromState src start k ck _ hcur
        (by simp [stateAfter, Nat.min_eq_left (show k + 1 ≤ src.length by omega)])
        hck (by omega)

theorem stateAfter_peek_ahead (src : List Char) (start k : Nat)
    (h : k + 2 ≤ src.length) :
    (stateAfter src start k).peek_ahead = src[k + 2]? := by
  have hmin : min (k + 1) src.length = k + 1 := Nat.min_eq_left (by omega)
  obtain ⟨c1, hc1⟩ : ∃ c, src[k + 1]? = some c :=
    ⟨_, List.getElem?_eq_getElem (by omega)⟩
  unfold LexerInput.peek_ahead FileMapInput.peek_ahead
  have hinp : (stateAfter src start k).input = ⟨start, src, k + 1⟩ := by
    simp [stateAfter, hmin]
  rw [hinp]
  cases hv : src[k + 2]? with
  | some c2 =>
    simp [FileMapInput.next, hc1, hv]
  | none =>
    simp [FileMapInput.next, hc1, hv]

theorem stateAfter_current_val (src : List Char) (start k : Nat)
    (h : k ≤ src.length) :
    (stateAfter src start k).current.1 = src[k]? := by
  cases hv : src[k]? with
  | some c =>
    simp [LexerInput.current, stateAfter, hv]
  | none =>
    have hlen : src.length = k := by
      by_contra hne
      rw [List.getElem?_eq_getElem (by omega)] at hv
      exact Option.noConfusion hv
    have hmin : min (k + 1) src.length = src.length := Nat.min_eq_right (by omega)
    simp [LexerInput.current, stateAfter, hv, FileMapInput.next, hmin, hlen,
      List.getElem?_eq_none (Nat.le_refl _)]

/-- C9 counterexample: on a pristine stream (nothing buffered yet, zero
advances), peek_ahead returns codepoint number 1 of the source, while
current() after two advances returns codepoint number 2; the source abc
has at least 0 + 2 codepoints, refuting the claim at N = 0. -/
theorem claim_c9_counterexample :
    (advanceN 0 (mkLexer ['a', 'b', 'c'] 0)).toOption = some (mkLexer ['a', 'b', 'c'] 0) ∧
    (mkLexer ['a', 'b', 'c'] 0).peek_ahead = some 'b' ∧
    (advanceN 2 (mkLexer ['a', 'b', 'c'] 0)).toOption.map (fun s => s.current.1) =
      some (some 'c') ∧
    (0 : Nat) + 2 ≤ ['a', 'b', 'c'].length ∧
    some 'b' ≠ some 'c' := by
  decide

/-- C9 (amended): after N legal advances with N ≥ 1 (equivalently,
whenever the initial codepoint has already been buffered by current()),
peek_ahead returns exactly the codepoint that current() returns after
N + 2 advances, namely codepoint number N + 2 of the source; the same
holds at N = 0 measured from the state where current() has buffered the
first codepoint.  peek and peek_ahead mutate nothing (they are pure
functions of the state in this embedding, mirroring the clone-based
source implementation). -/
theorem claim_c9_peek_ahead (src : List Char) (start n : Nat)
    (hn : 1 ≤ n) (hlen : n + 2 ≤ src.length) :
    (∃ s1 s2, advanceN n (mkLexer src start) = .ok s1 ∧
      advanceN (n + 2) (mkLexer src start) = .ok s2 ∧
      s1.peek_ahead = s2.current.1 ∧
      s1.peek_ahead = src[n + 2]?) ∧
    (∃ t2, advanceN 2 (mkLexer src start) = .ok t2 ∧
      ((mkLexer src start).current.2).peek_ahead = t2.current.1) := by
  constructor
  · refine ⟨stateAfter src start n, stateAfter src start (n + 2),
      advanceN_mkLexer src start n hn (by omega),
      advanceN_mkLexer src start (n + 2) (by omega) hlen, ?_, ?_⟩
    · rw [stateAfter_peek_ahead src start n hlen,
        stateAfter_current_val src start (n + 2) hlen]
    · exact stateAfter_peek_ahead src start n hlen
  · refine ⟨stateAfter src start 2,
      advanceN_mkLexer src start 2 (by omega) (by omega), ?_⟩
    rw [stateAfter_current_val src start 2 (by omega)]
    obtain ⟨c0, hc0⟩ : ∃ c, src[0]? = some c :=
      ⟨_, List.getElem?_eq_getElem (by omega)⟩
    obtain ⟨c1, hc1⟩ : ∃ c, src[1]? = some c :=
      ⟨_, List.getElem?_eq_getElem (by omega)⟩
    have hcur2 : (mkLexer src start).current.2 =
        ⟨some ((utf8Bytes src 0 + start) % u32Mod, c0), 0, ⟨start, src, 1⟩⟩ := by
      simp [mkLexer, LexerInput.new, LexerInput.current, FileMapInput.next, hc0]
    rw [hcur2]
    unfold LexerInput.peek_ahead FileMapInput.peek_ahead
    cases hv : src[2]? with
    | some c2 => simp [FileMapInput.next, hc1, hv]
    | none => simp [FileMapInput.next, hc1, hv]

/-- C9 witness: the amended peek-ahead law applied to the concrete
four-codepoint source abcd with N = 1. -/
theorem claim_c9_witness :
    (1 ≤ 1 ∧ 1 + 2 ≤ ['a', 'b', 'c', 'd'].length) ∧
    ((∃ s1 s2, advanceN 1 (mkLexer ['a', 'b', 'c', 'd'] 0) = .ok s1 ∧
      advanceN (1 + 2) (mkLexer ['a', 'b', 'c', 'd'] 0) = .ok s2 ∧
      s1.peek_ahead = s2.current.1 ∧
      s1.peek_ahead = ['a', 'b', 'c', 'd'][1 + 2]?) ∧
    (∃ t2, advanceN 2 (mkLexer ['a', 'b', 'c', 'd'] 0) = .ok t2 ∧
      ((mkLexer ['a', 'b', 'c', 'd'] 0).current.2).peek_ahead = t2.current.1)) :=
  ⟨⟨le_rfl, by decide⟩, claim_c9_peek_ahead ['a', 'b', 'c', 'd'] 0 1 le_rfl (by decide)⟩

/-- C7 witness: the bump law applied to a concrete stream over the source
consisting of the letter a followed by a three-byte codepoint, with start
offset 7 and the first codepoint buffered. -/
theorem claim_c7_witness :
    WfL ((mkLexer ['a', '€'] 7).current.2) ∧
    ((mkLexer ['a', '€'] 7).current.2).cur = some (7, 'a') ∧
    (∃ s', ((mkLexer ['a', '€'] 7).current.2).bump = .ok s' ∧
      s'.last_pos = 7 + utf8Len 'a' ∧
      consumedCount s' = consumedCount ((mkLexer ['a', '€'] 7).current.2) + 1 ∧
      0 < utf8Len 'a' ∧
      (∀ p' c', s'.cur = some (p', c') → p' = 7 + utf8Len 'a') ∧
      WfL s') := by
  have hwf : WfL ((mkLexer ['a', '€'] 7).current.2) :=
    (wfL_current (wfL_mkLexer ['a', '€'] 7 (by decide))).1
  exact ⟨hwf, by decide, claim_c7_bump _ 7 'a' hwf (by decide)⟩

/-- C8 witness: the cur_pos and last_pos law applied to a concrete
well-formed stream state. -/
theorem claim_c8_witness :
    WfL ((mkLexer ['x', 'y'] 3).current.2) ∧
    ((∀ p c, ((mkLexer ['x', 'y'] 3).current.2).current.2.cur = some (p, c) →
        ((mkLexer ['x', 'y'] 3).current.2).cur_pos.1 = p) ∧
      (((mkLexer ['x', 'y'] 3).current.2).current.2.cur = none →
        ((mkLexer ['x', 'y'] 3).current.2).cur_pos.1 =
          ((mkLexer ['x', 'y'] 3).current.2).last_pos) ∧
      (1 ≤ consumedCount ((mkLexer ['x', 'y'] 3).current.2) →
        ∃ ch, (['x', 'y'] : List Char)[consumedCount ((mkLexer ['x', 'y'] 3).current.2) - 1]? = some ch ∧
          ((mkLexer ['x', 'y'] 3).current.2).last_pos =
            (3 + utf8Bytes ['x', 'y'] (consumedCount ((mkLexer ['x', 'y'] 3).current.2) - 1)) + utf8Len ch)) := by
  have hwf : WfL ((mkLexer ['x', 'y'] 3).current.2) :=
    (wfL_current (wfL_mkLexer ['x', 'y'] 3 (by decide))).1
  exact ⟨hwf, claim_c8_positions _ hwf⟩

/-- Rust char::is_ascii_whitespace: space, tab, newline, carriage return,
form feed. -/
def isAsciiWhitespace (c : Char) : Bool :=
  c = ' ' || c = '\t' || c = '\n' || c = '\r' || c = '\x0c'

/-- str::split_ascii_whitespace modelled on codepoint lists (accumulator
holds the current segment reversed): the maximal nonempty runs of
non-whitespace codepoints, in order. -/
def splitAWSAux : List Char → List Char → List (List Char)
  | [], acc => if acc.isEmpty then [] else [acc.reverse]
  | c :: rest, acc =>
    if isAsciiWhitespace c then
      if acc.isEmpty then splitAWSAux rest [] else acc.reverse :: splitAWSAux rest []
    else splitAWSAux rest (c :: acc)

def splitAsciiWhitespace (l : List Char) : List (List Char) := splitAWSAux l []

/-- jsx_text_to_str from the source: return the text unchanged when it
contains neither a space nor a newline; otherwise replace newlines by
spaces, split on ASCII whitespace, and push every segment followed by one
space into the output buffer. -/
def jsx_text_to_str (t : String) : String :=
  if !(t.data.contains ' ') && !(t.data.contains '\n') then t
  else
    String.mk
      (((splitAsciiWhitespace (t.data.map fun c => if c = '\n' then ' ' else c)).map
        (· ++ [' '])).flatten)

/-- Modelled from the spec claim wording only, for comparison with the
source function jsx_text_to_str: collapse every maximal run of
newline/space codepoints to exactly one space, leaving all other
codepoints unchanged (flag: previous codepoint was in the run class). -/
def collapseRunsAux : Bool → List Char → List Char
  | _, [] => []
  | prevWS, c :: rest =>
    if c = ' ' || c = '\n' then
      if prevWS then collapseRunsAux true rest
      else ' ' :: collapseRunsAux true rest
    else c :: collapseRunsAux false rest

def collapseRuns (l : List Char) : List Char := collapseRunsAux false l

/-- No two adjacent codepoints both lie in the space/newline class. -/
def noAdjSpaceNewline : List Char → Bool
  | [] => true
  | [_] => true
  | c :: d :: rest =>
    !((c = ' ' || c = '\n') && (d = ' ' || d = '\n')) && noAdjSpaceNewline (d :: rest)

/-- Byte span (pair of BytePos), half open. -/
structure Span where
  lo : Nat
  hi : Nat
deriving DecidableEq

/-- DUMMY_SP of the source. -/
def dummySpan : Span := ⟨0, 0⟩

/-- Identifier AST node: span and symbol text. -/
structure Ident where
  span : Span
  sym : String
deriving DecidableEq

/-- JSXText node: span, cooked value and raw source text. -/
structure JSXText where
  span : Span
  value : String
  raw : String
deriving DecidableEq

/-- Object of a JSX member-expression name: an identifier or a nested
member path (JSXObject/JSXMemberExpr of the ast crate, flattened into one
inductive). -/
inductive JSXObject
  | ident (i : Ident)
  | member (obj : JSXObject) (prop : Ident)
deriving DecidableEq

/-- JSXElementName: plain identifier, namespaced name ns:name, or member
path a.b.c. -/
inductive JSXElementName
  | ident (i : Ident)
  | namespacedName (ns : Ident) (name : Ident)
  | memberExpr (obj : JSXObject) (prop : Ident)
deriving DecidableEq

/-- JSXAttrName: plain identifier or namespaced name. -/
inductive JSXAttrName
  | ident (i : Ident)
  | namespacedName (ns : Ident) (name : Ident)
deriving DecidableEq

/-- PropName, restricted to the identifier and string keys this pass
produces. -/
inductive PropName
  | ident (i : Ident)
  | str (span : Span) (value : String) (hasEscape : Bool)
deriving DecidableEq

/-- Literal expressions (subset used by this pass). -/
inductive Lit
  | str (span : Span) (value : String) (hasEscape : Bool)
  | bool (span : Span) (value : Bool)
  | null (span : Span)
deriving DecidableEq

mutual
/-- Expression AST: the tagged union of the ast crate restricted to the
kinds the JSX pass constructs or inspects plus the JSX expression kinds;
every other kind behaves under the default fold exactly like the plain
kinds here (children folded, node rebuilt).  Closing elements carry no
expressions and are omitted. -/
inductive Expr
  | thisE (span : Span)
  | ident (i : Ident)
  | lit (l : Lit)
  | call (span : Span) (callee : ExprOrSuper) (args : List ExprOrSpread)
  | member (span : Span) (obj : ExprOrSuper) (prop : Expr) (computed : Bool)
  | object (span : Span) (props : List PropOrSpread)
  | paren (span : Span) (expr : Expr)
  | jsxElement (el : JSXElement)
  | jsxFragment (frag : JSXFragment)

inductive ExprOrSuper
  | superE (span : Span)
  | expr (e : Expr)

/-- ExprOrSpread: a call argument, with the span of the three dots when it
is a spread argument. -/
inductive ExprOrSpread
  | mk (spread : Option Span) (expr : Expr)

inductive PropOrSpread
  | prop (p : Prop')
  | spread (expr : Expr)

inductive Prop'
  | shorthand (i : Ident)
  | keyValue (key : PropName) (value : Expr)

inductive JSXElement
  | mk (span : Span) (opening : JSXOpeningElement) (children : List JSXElementChild)

inductive JSXOpeningElement
  | mk (name : JSXElementName) (span : Span) (attrs : List JSXAttrOrSpread)
      (selfClosing : Bool)

inductive JSXFragment
  | mk (span : Span) (children : List JSXElementChild)

inductive JSXElementChild
  | jsxText (t : JSXText)
  | jsxExprContainer (span : Span) (e : JSXExpr)
  | jsxSpreadChild (span : Span) (e : Expr)
  | element (el : JSXElement)
  | fragment (frag : JSXFragment)

inductive JSXExpr
  | jsxEmptyExpr (span : Span)
  | expr (e : Expr)

inductive JSXAttrOrSpread
  | jsxAttr (a : JSXAttr)
  | spreadElement (dot3 : Span) (expr : Expr)

inductive JSXAttr
  | mk (span : Span) (name : JSXAttrName) (value : Option Expr)
end

/-- Span of a JSXObject; composite spans are modelled from the spec (a
span delimits the whole syntax element): lo of the first part to hi of
the last. -/
def JSXObject.spanOf : JSXObject → Span
  | .ident i => i.span
  | .member obj prop => ⟨(JSXObject.spanOf obj).lo, prop.span.hi⟩

/-- Span of a JSXElementName, same modelling remark as JSXObject.spanOf. -/
def JSXElementName.spanOf : JSXElementName → Span
  | .ident i => i.span
  | .namespacedName ns name => ⟨ns.span.lo, name.span.hi⟩
  | .memberExpr obj prop => ⟨(obj.spanOf).lo, prop.span.hi⟩

/-- Span of a JSXAttrName, same modelling remark. -/
def JSXAttrName.spanOf : JSXAttrName → Span
  | .ident i => i.span
  | .namespacedName ns name => ⟨ns.span.lo, name.span.hi⟩

def PropName.spanOf : PropName → Span
  | .ident i => i.span
  | .str sp _ _ => sp

/-- Options of the JSX pass, with the serde defaults of the source. -/
structure Options where
  pragma : String
  pragma_frag : String
  throw_if_namespace : Bool
  development : Bool
  use_builtins : Bool
deriving DecidableEq

def default_pragma : String := "React.createElement"

def default_pragma_frag : String := "React.Fragment"

def default_throw_if_namespace : Bool := true

def Options.default : Options :=
  ⟨default_pragma, default_pragma_frag, default_throw_if_namespace, false, false⟩

/-- Helper Registry: shared flags naming runtime helpers that codegen must
inject; this pass touches only the extends flag, modelled here. -/
structure Helpers where
  extends_flag : Bool
deriving DecidableEq

/-- The Jsx pass state: the parsed pragma (as a callee), the parsed
fragment pragma (as a first argument), and the use_builtins switch;
exactly the fields of the source struct (the helpers handle is modelled
by explicit Helpers state threading). -/
structure Jsx where
  pragma : ExprOrSuper
  pragma_frag : ExprOrSpread
  use_builtins : Bool

/-- jsx() pass constructor.  The two pragma strings are parsed once by an
external single-expression sub-parser; that parser lives outside src/, so
it is modelled from the spec as an oracle function from strings to
expressions.  Only pragma, pragma_frag and use_builtins are kept;
throw_if_namespace and development are read by no code path. -/
def jsx (parseExpr : String → Expr) (options : Options) : Jsx :=
  { pragma := .expr (parseExpr options.pragma),
    pragma_frag := .mk none (parseExpr options.pragma_frag),
    use_builtins := options.use_builtins }

/-- char::is_ascii_lowercase. -/
def isAsciiLowercase (c : Char) : Bool := 'a' ≤ c && c ≤ 'z'

/-- convert_obj from the source: the identifier this becomes a this
expression, any other identifier a plain identifier reference, and member
paths become nested non-computed member expressions. -/
def convert_obj : JSXObject → ExprOrSuper
  | .ident i => if i.sym = "this" then .expr (.thisE i.span) else .expr (.ident i)
  | .member obj prop =>
    .expr (.member (JSXObject.spanOf (.member obj prop)) (convert_obj obj)
      (.ident prop) false)

/-- jsx_name from the source.  The source first unwraps the first
character of the symbol (a panic on an empty symbol, which the parser
never produces), then special-cases this, then lowercase-initial
identifiers. -/
def jsx_name : JSXElementName → Except Fatal Expr
  | .ident i =>
    match i.sym.data with
    | [] => .error (.panicked "called Option::unwrap on a None value")
    | c :: _ =>
      if i.sym = "this" then .ok (.thisE i.span)
      else if isAsciiLowercase c then .ok (.lit (.str i.span i.sym false))
      else .ok (.ident i)
  | .namespacedName ns name =>
    .ok (.lit (.str (JSXElementName.spanOf (.namespacedName ns name))
      (ns.sym ++ ":" ++ name.sym) false))
  | .memberExpr obj prop =>
    .ok (.member (JSXElementName.spanOf (.memberExpr obj prop)) (convert_obj obj)
      (.ident prop) false)

/-- to_prop_name from the source: hyphenated attribute names become string
keys, other identifiers identifier keys, namespaced names the string
ns:name. -/
def to_prop_name : JSXAttrName → PropName
  | .ident i =>
    if i.sym.data.contains '-' then .str i.span i.sym false
    else .ident i
  | .namespacedName ns name =>
    .str (JSXAttrName.spanOf (.namespacedName ns name)) (ns.sym ++ ":" ++ name.sym) false

/-- attr_to_prop from the source: key from to_prop_name, value the given
expression or the boolean literal true at the key's span for a valueless
attribute. -/
def attr_to_prop : JSXAttr → Prop'
  | .mk _ name value =>
    let key := to_prop_name name
    .keyValue key (value.getD (.lit (.bool (PropName.spanOf key) true)))

/-- ExprFactory::as_arg: wrap an expression as a plain call argument. -/
def Expr.as_arg (e : Expr) : ExprOrSpread := .mk none e

def isSpreadAttr : JSXAttrOrSpread → Bool
  | .spreadElement _ _ => true
  | .jsxAttr _ => false

/-- The check! macro of fold_attrs: flush the accumulated plain-attribute
props as one object-literal argument when the argument list is still
empty or props are pending. -/
def checkAttrArgs (args : List ExprOrSpread) (cur : List PropOrSpread) : List ExprOrSpread :=
  if args.isEmpty || !cur.isEmpty then args ++ [Expr.as_arg (.object dummySpan cur)]
  else args

/-- The attribute loop of fold_attrs in the spread-present branch:
accumulate plain attributes, flush on each spread, flush at the end. -/
def foldAttrsLoop : List JSXAttrOrSpread → List ExprOrSpread → List PropOrSpread →
    List ExprOrSpread
  | [], args, cur => checkAttrArgs args cur
  | .jsxAttr a :: rest, args, cur =>
    foldAttrsLoop rest args (cur ++ [.prop (attr_to_prop a)])
  | .spreadElement _ e :: rest, args, cur =>
    foldAttrsLoop rest (checkAttrArgs args cur ++ [Expr.as_arg e]) []

/-- member_expr!(DUMMY_SP, Object.assign). -/
def objectAssignCallee : ExprOrSuper :=
  .expr (.member dummySpan (.expr (.ident ⟨dummySpan, "Object"⟩))
    (.ident ⟨dummySpan, "assign"⟩) false)

/-- quote_ident!("_extends") as a callee. -/
def extendsCallee : ExprOrSuper := .expr (.ident ⟨dummySpan, "_extends"⟩)

/-- The map of the no-spread branch of fold_attrs; the spread case is the
unreachable! of the source (guarded out by is_complex). -/
def attrsToProps : List JSXAttrOrSpread → Except Fatal (List PropOrSpread)
  | [] => .ok []
  | .jsxAttr a :: rest => do
    let ps ← attrsToProps rest
    .ok (.prop (attr_to_prop a) :: ps)
  | .spreadElement _ _ :: _ => .error (.panicked "internal error: entered unreachable code")

/-- fold_attrs from the source: empty list becomes the null literal; with
at least one spread, the loop arguments feed Object.assign (use_builtins)
or the injected _extends helper, whose registry flag is then set; with no
spread, a single object literal. -/
def fold_attrs (j : Jsx) (attrs : List JSXAttrOrSpread) (h : Helpers) :
    Except Fatal (Expr × Helpers) :=
  if attrs.isEmpty then .ok (.lit (.null dummySpan), h)
  else if attrs.any isSpreadAttr then
    let args := foldAttrsLoop attrs [] []
    if j.use_builtins then .ok (.call dummySpan objectAssignCallee args, h)
    else .ok (.call dummySpan extendsCallee args, { h with extends_flag := true })
  else do
    let props ← attrsToProps attrs
    .ok (.object dummySpan props, h)

mutual
/-- jsx_elem_to_expr from the source: name, then attributes (with their
helper side effect), then the filtered children, as arguments of a call
to the pragma at the element's span. -/
def jsx_elem_to_expr (j : Jsx) : JSXElement → Helpers → Except Fatal (Expr × Helpers)
  | .mk span (.mk name _ attrs _) children, h => do
    let nameExpr ← jsx_name name
    let (attrsExpr, h1) ← fold_attrs j attrs h
    let (childArgs, h2) ← jsx_children_to_args j children h1
    .ok (.call span j.pragma
      (Expr.as_arg nameExpr :: Expr.as_arg attrsExpr :: childArgs), h2)

/-- jsx_frag_to_expr from the source: fragment pragma, null, then the
filtered children, as arguments of a call to the pragma at the
fragment's span. -/
def jsx_frag_to_expr (j : Jsx) : JSXFragment → Helpers → Except Fatal (Expr × Helpers)
  | .mk span children, h => do
    let (childArgs, h1) ← jsx_children_to_args j children h
    .ok (.call span j.pragma
      (j.pragma_frag :: Expr.as_arg (.lit (.null dummySpan)) :: childArgs), h1)

/-- jsx_elem_child_to_expr from the source: normalized nonempty text and
real container expressions become arguments; empty text and empty
expressions contribute nothing; nested elements and fragments recurse;
a spread child is the unimplemented! panic of the source. -/
def jsx_elem_child_to_expr (j : Jsx) : JSXElementChild → Helpers →
    Except Fatal (Option ExprOrSpread × Helpers)
  | .jsxText t, h =>
    let value := jsx_text_to_str t.value
    if value = "" then .ok (none, h)
    else .ok (some (Expr.as_arg (.lit (.str t.span value (t.raw != t.value)))), h)
  | .jsxExprContainer _ (.expr e), h => .ok (some (Expr.as_arg e), h)
  | .jsxExprContainer _ (.jsxEmptyExpr _), h => .ok (none, h)
  | .element el, h => do
    let (e, h1) ← jsx_elem_to_expr j el h
    .ok (some (Expr.as_arg e), h1)
  | .fragment f, h => do
    let (e, h1) ← jsx_frag_to_expr j f h
    .ok (some (Expr.as_arg e), h1)
  | .jsxSpreadChild _ _, _ => .error (.unimplemented "jsx sperad child")

/-- The children pipeline of both lowering functions: filter_map of
jsx_elem_child_to_expr, left to right. -/
def jsx_children_to_args (j : Jsx) : List JSXElementChild → Helpers →
    Except Fatal (List ExprOrSpread × Helpers)
  | [], h => .ok ([], h)
  | c :: rest, h => do
    let (o, h1) ← jsx_elem_child_to_expr j c h
    let (args, h2) ← jsx_children_to_args j rest h1
    .ok (o.toList ++ args, h2)
end

mutual
/-- Fold of Expr for Jsx.  The default traversal (children folded first,
the node rebuilt with the same kind) is modelled from the spec's fold
contract, since the Fold derive lives outside src/; the explicit match of
the source then rewrites a (possibly parenthesized) JSX element through
jsx_elem_to_expr and leaves every other folded node unchanged — in
particular a JSX fragment expression falls through to the default arm. -/
def foldExpr (j : Jsx) : Expr → Helpers → Except Fatal (Expr × Helpers)
  | .thisE sp, h => .ok (.thisE sp, h)
  | .ident i, h => .ok (.ident i, h)
  | .lit l, h => .ok (.lit l, h)
  | .call sp callee args, h => do
    let (callee1, h1) ← foldExprOrSuper j callee h
    let (args1, h2) ← foldArgs j args h1
    .ok (.call sp callee1 args1, h2)
  | .member sp obj prop computed, h => do
    let (obj1, h1) ← foldExprOrSuper j obj h
    let (prop1, h2) ← foldExpr j prop h1
    .ok (.member sp obj1 prop1 computed, h2)
  | .object sp props, h => do
    let (props1, h1) ← foldProps j props h
    .ok (.object sp props1, h1)
  | .paren sp e, h => do
    let (e1, h1) ← foldExpr j e h
    match e1 with
    | .jsxElement el => jsx_elem_to_expr j el h1
    | e2 => .ok (.paren sp e2, h1)
  | .jsxElement el, h => do
    let (el1, h1) ← foldJSXElement j el h
    jsx_elem_to_expr j el1 h1
  | .jsxFragment f, h => do
    let (f1, h1) ← foldJSXFragment j f h
    .ok (.jsxFragment f1, h1)

def foldExprOrSuper (j : Jsx) : ExprOrSuper → Helpers → Except Fatal (ExprOrSuper × Helpers)
  | .superE sp, h => .ok (.superE sp, h)
  | .expr e, h => do
    let (e1, h1) ← foldExpr j e h
    .ok (.expr e1, h1)

def foldArg (j : Jsx) : ExprOrSpread → Helpers → Except Fatal (ExprOrSpread × Helpers)
  | .mk sp e, h => do
    let (e1, h1) ← foldExpr j e h
    .ok (.mk sp e1, h1)

def foldArgs (j : Jsx) : List ExprOrSpread → Helpers →
    Except Fatal (List ExprOrSpread × Helpers)
  | [], h => .ok ([], h)
  | a :: rest, h => do
    let (a1, h1) ← foldArg j a h
    let (rest1, h2) ← foldArgs j rest h1
    .ok (a1 :: rest1, h2)

def foldProp (j : Jsx) : Prop' → Helpers → Except Fatal (Prop' × Helpers)
  | .shorthand i, h => .ok (.shorthand i, h)
  | .keyValue k v, h => do
    let (v1, h1) ← foldExpr j v h
    .ok (.keyValue k v1, h1)

def foldPropOrSpread (j : Jsx) : PropOrSpread → Helpers →
    Except Fatal (PropOrSpread × Helpers)
  | .prop p, h => do
    let (p1, h1) ← foldProp j p h
    .ok (.prop p1, h1)
  | .spread e, h => do
    let (e1, h1) ← foldExpr j e h
    .ok (.spread e1, h1)

def foldProps (j : Jsx) : List PropOrSpread → Helpers →
    Except Fatal (List PropOrSpread × Helpers)
  | [], h => .ok ([], h)
  | p :: rest, h => do
    let (p1, h1) ← foldPropOrSpread j p h
    let (rest1, h2) ← foldProps j rest h1
    .ok (p1 :: rest1, h2)

def foldJSXElement (j : Jsx) : JSXElement → Helpers →
    Except Fatal (JSXElement × Helpers)
  | .mk sp (.mk name osp attrs sc) children, h => do
    let (attrs1, h1) ← foldAttrsList j attrs h
    let (children1, h2) ← foldChildren j children h1
    .ok (.mk sp (.mk name osp attrs1 sc) children1, h2)

def foldOptExpr (j : Jsx) : Option Expr → Helpers →
    Except Fatal (Option Expr × Helpers)
  | none, h => .ok (none, h)
  | some e, h => do
    let (e1, h1) ← foldExpr j e h
    .ok (some e1, h1)

def foldAttrOrSpread (j : Jsx) : JSXAttrOrSpread → Helpers →
    Except Fatal (JSXAttrOrSpread × Helpers)
  | .jsxAttr (.mk sp name value), h => do
    let (value1, h1) ← foldOptExpr j value h
    .ok (.jsxAttr (.mk sp name value1), h1)
  | .spreadElement d e, h => do
    let (e1, h1) ← foldExpr j e h
    .ok (.spreadElement d e1, h1)

def foldAttrsList (j : Jsx) : List JSXAttrOrSpread → Helpers →
    Except Fatal (List JSXAttrOrSpread × Helpers)
  | [], h => .ok ([], h)
  | a :: rest, h => do
    let (a1, h1) ← foldAttrOrSpread j a h
    let (rest1, h2) ← foldAttrsList j rest h1
    .ok (a1 :: rest1, h2)

def foldJSXFragment (j : Jsx) : JSXFragment → Helpers →
    Except Fatal (JSXFragment × Helpers)
  | .mk sp children, h => do
    let (children1, h1) ← foldChildren j children h
    .ok (.mk sp children1, h1)

def foldChild (j : Jsx) : JSXElementChild → Helpers →
    Except Fatal (JSXElementChild × Helpers)
  | .jsxText t, h => .ok (.jsxText t, h)
  | .jsxExprContainer sp (.expr e), h => do
    let (e1, h1) ← foldExpr j e h
    .ok (.jsxExprContainer sp (.expr e1), h1)
  | .jsxExprContainer sp (.jsxEmptyExpr s2), h =>
    .ok (.jsxExprContainer sp (.jsxEmptyExpr s2), h)
  | .jsxSpreadChild sp e, h => do
    let (e1, h1) ← foldExpr j e h
    .ok (.jsxSpreadChild sp e1, h1)
  | .element el, h => do
    let (el1, h1) ← foldJSXElement j el h
    .ok (.element el1, h1)
  | .fragment f, h => do
    let (f1, h1) ← foldJSXFragment j f h
    .ok (.fragment f1, h1)

def foldChildren (j : Jsx) : List JSXElementChild → Helpers →
    Except Fatal (List JSXElementChild × Helpers)
  | [], h => .ok ([], h)
  | c :: rest, h => do
    let (c1, h1) ← foldChild j c h
    let (rest1, h2) ← foldChildren j rest h1
    .ok (c1 :: rest1, h2)
end

/-- A module, modelled from the spec as the list of its top-level
expression statements (the Fold of Module instance is the blanket default
traversal, which lives outside src/). -/
structure JsModule where
  body : List Expr

def foldModuleBody (j : Jsx) : List Expr → Helpers →
    Except Fatal (List Expr × Helpers)
  | [], h => .ok ([], h)
  | e :: rest, h => do
    let (e1, h1) ← foldExpr j e h
    let (rest1, h2) ← foldModuleBody j rest h1
    .ok (e1 :: rest1, h2)

/-- The whole pass on a module: fold every top-level expression. -/
def foldModule (j : Jsx) (m : JsModule) (h : Helpers) : Except Fatal (JsModule × Helpers) := do
  let (b, h1) ← foldModuleBody j m.body h
  .ok (⟨b⟩, h1)

/-- Is the top node of an expression a JSX node kind? -/
def isJSXNode : Expr → Bool
  | .jsxElement _ => true
  | .jsxFragment _ => true
  | _ => false

/-- Modelled from the spec: the default pragma string React.createElement
parsed by the external single-expression sub-parser into a member
expression (the parser lives outside src/). -/
def reactCreateElement : Expr :=
  .member dummySpan (.expr (.ident ⟨dummySpan, "React"⟩))
    (.ident ⟨dummySpan, "createElement"⟩) false

/-- Modelled from the spec: the default fragment pragma string
React.Fragment parsed into a member expression. -/
def reactFragment : Expr :=
  .member dummySpan (.expr (.ident ⟨dummySpan, "React"⟩))
    (.ident ⟨dummySpan, "Fragment"⟩) false

/-- The Jsx pass with the default options. -/
def defaultJsxPass : Jsx := ⟨.expr reactCreateElement, .mk none reactFragment, false⟩

/-- The fragment expression of the C1 example: the children of
<>{"x"}{}</> are a container holding the string literal "x" and a
container holding an empty expression. -/
def fragExampleC1 : JSXFragment :=
  .mk ⟨0, 12⟩
    [.jsxExprContainer ⟨2, 7⟩ (.expr (.lit (.str ⟨3, 6⟩ "x" false))),
     .jsxExprContainer ⟨7, 9⟩ (.jsxEmptyExpr ⟨8, 8⟩)]

/-- C1: evaluation of the pass at the failing input.  The top-level
fragment expression of the module holding exactly <>{"x"}{}</> survives
the whole pass as a JSX fragment (the Fold match of the source has no
arm for Expr::JSXFragment), instead of becoming the claimed call — while
jsx_frag_to_expr itself, had it been dispatched, produces exactly
React.createElement(React.Fragment, null, "x"), with the
empty-expression child contributing no argument. -/
theorem claim_c1_fragment_not_folded :
    foldModule defaultJsxPass ⟨[.jsxFragment fragExampleC1]⟩ ⟨false⟩ =
      .ok (⟨[.jsxFragment fragExampleC1]⟩, ⟨false⟩) ∧
    foldExpr defaultJsxPass (.jsxFragment fragExampleC1) ⟨false⟩ =
      .ok (.jsxFragment fragExampleC1, ⟨false⟩) ∧
    isJSXNode (.jsxFragment fragExampleC1) = true ∧
    jsx_frag_to_expr defaultJsxPass fragExampleC1 ⟨false⟩ =
      .ok (.call ⟨0, 12⟩ (.expr reactCreateElement)
        [.mk none reactFragment, Expr.as_arg (.lit (.null dummySpan)),
         Expr.as_arg (.lit (.str ⟨3, 6⟩ "x" false))], ⟨false⟩) :=
  ⟨rfl, rfl, rfl, rfl⟩

/-- C5 counterexample: two spread children at different spans produce the
identical fatal signal, the fixed unimplemented! message of the source,
so the signal does not carry the offending span. -/
theorem claim_c5_counterexample :
    jsx_elem_child_to_expr defaultJsxPass
        (.jsxSpreadChild ⟨5, 9⟩ (.ident ⟨⟨5, 9⟩, "p"⟩)) ⟨false⟩ =
      .error (.unimplemented "jsx sperad child") ∧
    jsx_elem_child_to_expr defaultJsxPass
        (.jsxSpreadChild ⟨100, 200⟩ (.ident ⟨⟨100, 200⟩, "q"⟩)) ⟨false⟩ =
      .error (.unimplemented "jsx sperad child") ∧
    (⟨5, 9⟩ : Span) ≠ (⟨100, 200⟩ : Span) :=
  ⟨rfl, rfl, by decide⟩

/-- C5 (amended): a JSX spread child encountered during child lowering is
fatal for the compilation unit — lowering aborts with an error and no
output — and the propagated signal is the fixed panic message of the
unimplemented! macro, which carries no span. -/
theorem claim_c5_spread_child_fatal (j : Jsx) (sp : Span) (e : Expr) (h : Helpers) :
    jsx_elem_child_to_expr j (.jsxSpreadChild sp e) h =
      .error (.unimplemented "jsx sperad child") ∧
    (∀ fsp rest, jsx_frag_to_expr j (.mk fsp (.jsxSpreadChild sp e :: rest)) h =
      .error (.unimplemented "jsx sperad child")) :=
  ⟨rfl, fun _ _ => rfl⟩

theorem spaceNl_imp_asciiWS {x : Char} (h : (x = ' ' || x = '\n') = true) :
    isAsciiWhitespace x = true := by
  simp only [Bool.or_eq_true, decide_eq_true_eq] at h
  unfold isAsciiWhitespace
  simp only [Bool.or_eq_true, decide_eq_true_eq]
  tauto

theorem noAdj_cons_nonws {c : Char} {rest : List Char}
    (h : (c = ' ' || c = '\n') = false) :
    noAdjSpaceNewline (c :: rest) = noAdjSpaceNewline rest := by
  cases rest with
  | nil => rfl
  | cons d u => simp [noAdjSpaceNewline, h]

theorem noAdj_cons_cons_nonws₂ {c d : Char} {u : List Char}
    (h : (d = ' ' || d = '\n') = false) :
    noAdjSpaceNewline (c :: d :: u) = noAdjSpaceNewline (d :: u) := by
  simp [noAdjSpaceNewline, h]

theorem noAdj_of_all_nonws {l : List Char}
    (h : ∀ x ∈ l, (x = ' ' || x = '\n') = false) : noAdjSpaceNewline l = true := by
  induction l with
  | nil => rfl
  | cons c rest ih =>
    rw [noAdj_cons_nonws (h c (List.mem_cons_self c rest))]
    exact ih fun x hx => h x (List.mem_cons_of_mem c hx)

theorem noAdj_append_left {s t : List Char}
    (hs : ∀ x ∈ s, (x = ' ' || x = '\n') = false)
    (ht : noAdjSpaceNewline t = true) : noAdjSpaceNewline (s ++ t) = true := by
  induction s with
  | nil => simpa using ht
  | cons c s' ih =>
    rw [List.cons_append, noAdj_cons_nonws (hs c (List.mem_cons_self c s'))]
    exact ih fun x hx => hs x (List.mem_cons_of_mem c hx)

/-- Segments produced by splitAWSAux are nonempty and contain no ASCII
whitespace, as long as the accumulator does. -/
theorem splitAWSAux_segs (l : List Char) :
    ∀ acc, (∀ x ∈ acc, isAsciiWhitespace x = false) →
      ∀ s ∈ splitAWSAux l acc, s ≠ [] ∧ ∀ x ∈ s, isAsciiWhitespace x = false := by
  induction l with
  | nil =>
    intro acc hacc s hs
    unfold splitAWSAux at hs
    by_cases he : acc.isEmpty
    · simp [he] at hs
    · simp [he] at hs
      subst hs
      constructor
      · simp only [ne_eq, List.reverse_eq_nil_iff]
        intro h0
        subst h0
        simp at he
      · intro x hx
        exact hacc x (List.mem_reverse.mp hx)
  | cons c rest ih =>
    intro acc hacc s hs
    unfold splitAWSAux at hs
    by_cases hws : isAsciiWhitespace c
    · simp only [hws, if_true] at hs
      by_cases he : acc.isEmpty
      · simp only [he, if_true] at hs
        exact ih [] (by simp) s hs
      · simp only [he, if_false] at hs
        rcases List.mem_cons.mp hs with h1 | h1
        · subst h1
          constructor
          · simp only [ne_eq, List.reverse_eq_nil_iff]
            intro h0
            subst h0
            simp at he
          · intro x hx
            exact hacc x (List.mem_reverse.mp hx)
        · exact ih [] (by simp) s h1
    · simp only [hws, if_false] at hs
      refine ih (c :: acc) ?_ s hs
      intro x hx
      rcases List.mem_cons.mp hx with h1 | h1
      · subst h1
        simpa using hws
      · exact hacc x h1

/-- Flattening nonempty all-non-whitespace segments, each followed by one
space, never puts two space/newline codepoints next to each other; the
result is empty or starts with a non-space/newline codepoint. -/
theorem noAdj_flattenTrail (segs : List (List Char))
    (hseg : ∀ s ∈ segs, s ≠ [] ∧ ∀ x ∈ s, isAsciiWhitespace x = false) :
    noAdjSpaceNewline ((segs.map (· ++ [' '])).flatten) = true ∧
      ((segs.map (· ++ [' '])).flatten = [] ∨
        ∃ c rest, (segs.map (· ++ [' '])).flatten = c :: rest ∧
          (c = ' ' || c = '\n') = false) := by
  induction segs with
  | nil => exact ⟨rfl, Or.inl rfl⟩
  | cons s rest ih =>
    obtain ⟨hne, hnw⟩ := hseg s (List.mem_cons_self s rest)
    obtain ⟨ihadj, ihhead⟩ := ih fun t ht => hseg t (List.mem_cons_of_mem s ht)
    have hnw2 : ∀ x ∈ s, (x = ' ' || x = '\n') = false := by
      intro x hx
      by_contra hx2
      have hx3 : (x = ' ' || x = '\n') = true := by
        cases hb : (x = ' ' || x = '\n') with
        | false => exact absurd hb hx2
        | true => rfl
      have := spaceNl_imp_asciiWS hx3
      rw [hnw x hx] at this
      exact Bool.noConfusion this
    have hflat : ((s :: rest).map (· ++ [' '])).flatten =
        s ++ (' ' :: (rest.map (· ++ [' '])).flatten) := by
      simp
    constructor
    · rw [hflat]
      refine noAdj_append_left hnw2 ?_
      rcases ihhead with h0 | ⟨c, r, hcr, hcn⟩
      · rw [h0]
        rfl
      · rw [hcr, noAdj_cons_cons_nonws₂ hcn, ← hcr]
        exact ihadj
    · right
      match s, hne with
      | c :: s', _ =>
        refine ⟨c, s' ++ (' ' :: (rest.map (· ++ [' '])).flatten), ?_, ?_⟩
        · rw [hflat]
          simp
        · exact hnw2 c (List.mem_cons_self c s')

/-- C3 counterexample: the text child a b (whose single internal space run
already has length one) lowers to the string literal "a b " — the source
normalization appends a trailing space — which differs from the claimed
pure run-collapse result "a b". -/
theorem claim_c3_counterexample :
    jsx_elem_child_to_expr defaultJsxPass (.jsxText ⟨⟨3, 6⟩, "a b", "a b"⟩) ⟨false⟩ =
      .ok (some (Expr.as_arg (.lit (.str ⟨3, 6⟩ "a b " false))), ⟨false⟩) ∧
    String.mk (collapseRuns "a b".data) = "a b" ∧
    "a b " ≠ "a b" :=
  ⟨rfl, by decide, by decide⟩

/-- C3 (amended): a text child contributes nothing when the normalized
text is empty, otherwise a string-literal argument whose value is
jsx_text_to_str of the text — text holding no space and no newline is
returned unchanged; otherwise newlines become spaces, the text is split
on ASCII whitespace, and every segment is emitted followed by exactly one
space, so internal newline/space runs collapse to one space, leading and
trailing whitespace is dropped, and one trailing space is appended
whenever a segment remains.  Consequently the normalized value never
holds two adjacent space/newline codepoints. -/
theorem claim_c3_text_child (j : Jsx) (t : JSXText) (h : Helpers) :
    jsx_elem_child_to_expr j (.jsxText t) h =
      (if jsx_text_to_str t.value = "" then .ok (none, h)
       else .ok (some (Expr.as_arg (.lit (.str t.span (jsx_text_to_str t.value)
         (t.raw != t.value)))), h)) ∧
    noAdjSpaceNewline (jsx_text_to_str t.value).data = true := by
  constructor
  · rfl
  · unfold jsx_text_to_str
    by_cases hg : (!(t.value.data.contains ' ') && !(t.value.data.contains '\n')) = true
    · rw [if_pos hg]
      apply noAdj_of_all_nonws
      simp at hg
      intro x hx
      cases hb : ((x = ' ' : Bool) || (x = '\n')) with
      | false => rfl
      | true =>
        rcases (by simpa using hb : x = ' ' ∨ x = '\n') with h1 | h1 <;> subst h1
        · exact absurd hx hg.1
        · exact absurd hx hg.2
    · rw [if_neg hg]
      exact (noAdj_flattenTrail
        (splitAsciiWhitespace (t.value.data.map fun c => if c = '\n' then ' ' else c))
        (splitAWSAux_segs _ [] (by simp))).1

/-- The left-most identifier of a JSX member-path object. -/
def leftmostIdent : JSXObject → Ident
  | .ident i => i
  | .member obj _ => leftmostIdent obj

/-- Every member access along the object spine of an expression is
non-computed. -/
def spineNonComputed : Expr → Bool
  | .member _ (.expr o) _ c => !c && spineNonComputed o
  | .member _ (.superE _) _ c => !c
  | _ => true

/-- The expression at the far left of a member-access spine. -/
def spineLeftmost : Expr → Expr
  | .member _ (.expr o) _ _ => spineLeftmost o
  | e => e

theorem convert_obj_shape (obj : JSXObject) :
    ∃ e, convert_obj obj = .expr e ∧ spineNonComputed e = true ∧
      spineLeftmost e = (if (leftmostIdent obj).sym = "this"
        then .thisE (leftmostIdent obj).span else .ident (leftmostIdent obj)) := by
  induction obj with
  | ident i =>
    by_cases hthis : i.sym = "this"
    · refine ⟨.thisE i.span, by simp [convert_obj, hthis], rfl, ?_⟩
      rw [if_pos (show (leftmostIdent (.ident i)).sym = "this" from hthis)]
      rfl
    · refine ⟨.ident i, by simp [convert_obj, hthis], rfl, ?_⟩
      rw [if_neg (show ¬(leftmostIdent (.ident i)).sym = "this" from hthis)]
      rfl
  | member obj prop ih =>
    obtain ⟨e, he, hnc, hlm⟩ := ih
    refine ⟨.member (JSXObject.spanOf (.member obj prop)) (convert_obj obj)
      (.ident prop) false, rfl, ?_, ?_⟩
    · rw [he]
      simp [spineNonComputed, hnc]
    · rw [he]
      show spineLeftmost e = _
      exact hlm

/-- C6: element-name resolution.  The identifier this lowers to the
enclosing-instance expression; an identifier whose first character is a
lowercase ASCII letter lowers to a string literal with the same text; any
other (nonempty) identifier lowers to an identifier reference; the
namespaced name ns:name lowers to the string literal "ns:name"; a member
path lowers to a nested member access where every level is non-computed
and the left-most object receives the this special case. -/
theorem claim_c6_jsx_name :
    (∀ sp, jsx_name (.ident ⟨sp, "this"⟩) = .ok (.thisE sp)) ∧
    (∀ i c rest, i.sym.data = c :: rest → i.sym ≠ "this" → isAsciiLowercase c = true →
      jsx_name (.ident i) = .ok (.lit (.str i.span i.sym false))) ∧
    (∀ i c rest, i.sym.data = c :: rest → i.sym ≠ "this" → isAsciiLowercase c = false →
      jsx_name (.ident i) = .ok (.ident i)) ∧
    (∀ ns name, jsx_name (.namespacedName ns name) =
      .ok (.lit (.str (JSXElementName.spanOf (.namespacedName ns name))
        (ns.sym ++ ":" ++ name.sym) false))) ∧
    (∀ obj prop, jsx_name (.memberExpr obj prop) =
        .ok (.member (JSXElementName.spanOf (.memberExpr obj prop)) (convert_obj obj)
          (.ident prop) false) ∧
      ∃ e, convert_obj obj = .expr e ∧ spineNonComputed e = true ∧
        spineLeftmost e = (if (leftmostIdent obj).sym = "this"
          then .thisE (leftmostIdent obj).span else .ident (leftmostIdent obj))) := by
  refine ⟨?_, ?_, ?_, ?_, ?_⟩
  · intro sp
    rfl
  · intro i c rest hdata hthis hlc
    obtain ⟨sp, sym⟩ := i
    obtain ⟨l⟩ := sym
    change l = c :: rest at hdata
    subst hdata
    show (if String.mk (c :: rest) = "this" then Except.ok (Expr.thisE sp)
      else if isAsciiLowercase c then
        Except.ok (Expr.lit (.str sp (String.mk (c :: rest)) false))
      else Except.ok (Expr.ident ⟨sp, String.mk (c :: rest)⟩)) = _
    rw [if_neg hthis, if_pos hlc]
  · intro i c rest hdata hthis hlc
    obtain ⟨sp, sym⟩ := i
    obtain ⟨l⟩ := sym
    change l = c :: rest at hdata
    subst hdata
    show (if String.mk (c :: rest) = "this" then Except.ok (Expr.thisE sp)
      else if isAsciiLowercase c then
        Except.ok (Expr.lit (.str sp (String.mk (c :: rest)) false))
      else Except.ok (Expr.ident ⟨sp, String.mk (c :: rest)⟩)) = _
    rw [if_neg hthis, if_neg (by simp [hlc])]
  · intro ns name
    rfl
  · intro obj prop
    exact ⟨rfl, convert_obj_shape obj⟩

/-- C6 witness: name resolution applied to the concrete names div (an
intrinsic tag) and Foo (a component). -/
theorem claim_c6_witness :
    (⟨⟨0, 3⟩, "div"⟩ : Ident).sym.data = 'd' :: "iv".data ∧
    ("div" : String) ≠ "this" ∧
    isAsciiLowercase 'd' = true ∧
    jsx_name (.ident ⟨⟨0, 3⟩, "div"⟩) = .ok (.lit (.str ⟨0, 3⟩ "div" false)) ∧
    isAsciiLowercase 'F' = false ∧
    jsx_name (.ident ⟨⟨0, 3⟩, "Foo"⟩) = .ok (.ident ⟨⟨0, 3⟩, "Foo"⟩) :=
  ⟨by decide, by decide, rfl,
   claim_c6_jsx_name.2.1 ⟨⟨0, 3⟩, "div"⟩ 'd' "iv".data (by decide) (by decide) rfl,
   rfl,
   claim_c6_jsx_name.2.2.1 ⟨⟨0, 3⟩, "Foo"⟩ 'F' "oo".data (by decide) (by decide) rfl⟩

/-- The leading contiguous run of plain attributes of an attribute list,
with the remainder (which is empty or starts with a spread). -/
def attrRun : List JSXAttrOrSpread → List JSXAttr × List JSXAttrOrSpread
  | [] => ([], [])
  | .jsxAttr a :: rest => ((a :: (attrRun rest).1), (attrRun rest).2)
  | .spreadElement d e :: rest => ([], .spreadElement d e :: rest)

theorem attrRun_rest_length : ∀ l : List JSXAttrOrSpread, (attrRun l).2.length ≤ l.length
  | [] => le_rfl
  | .jsxAttr _ :: rest => le_trans (attrRun_rest_length rest) (Nat.le_succ _)
  | .spreadElement _ _ :: _ => le_rfl

/-- The contiguous-run decomposition named by the claim: each maximal run
of plain attributes becomes one object-literal argument, each spread its
own positional argument, in order. -/
def runsArgs : List JSXAttrOrSpread → List ExprOrSpread
  | [] => []
  | .spreadElement _ e :: rest => Expr.as_arg e :: runsArgs rest
  | .jsxAttr a :: rest =>
    Expr.as_arg (.object dummySpan
        ((a :: (attrRun rest).1).map fun x => .prop (attr_to_prop x)))
      :: runsArgs (attrRun rest).2
termination_by l => l.length
decreasing_by
  all_goals simp_wf
  all_goals (have h := attrRun_rest_length rest; omega)

/-- The extra empty-object argument the loop emits when the attribute
list starts with a spread. -/
def leadEmpty : List JSXAttrOrSpread → List ExprOrSpread
  | .spreadElement _ _ :: _ => [Expr.as_arg (.object dummySpan [])]
  | _ => []

theorem runsArgs_nil : runsArgs [] = [] := by
  rw [runsArgs]

theorem runsArgs_spread (d : Span) (e : Expr) (rest : List JSXAttrOrSpread) :
    runsArgs (.spreadElement d e :: rest) = Expr.as_arg e :: runsArgs rest := by
  rw [runsArgs]

theorem runsArgs_attr (a : JSXAttr) (rest : List JSXAttrOrSpread) :
    runsArgs (.jsxAttr a :: rest) =
      Expr.as_arg (.object dummySpan
          ((a :: (attrRun rest).1).map fun x => .prop (attr_to_prop x)))
        :: runsArgs (attrRun rest).2 := by
  rw [runsArgs]

theorem foldAttrsLoop_emit (l : List JSXAttrOrSpread) :
    ∀ args cur, (args ≠ [] ∨ cur ≠ []) →
      foldAttrsLoop l args cur =
        args ++ (if cur.isEmpty then runsArgs l
          else Expr.as_arg (.object dummySpan
              (cur ++ ((attrRun l).1.map fun x => .prop (attr_to_prop x))))
            :: runsArgs (attrRun l).2) := by
  induction l with
  | nil =>
    intro args cur hne
    cases cur with
    | nil =>
      have hargs : args ≠ [] := by
        rcases hne with h | h
        · exact h
        · exact absurd rfl h
      match args, hargs with
      | a :: as, _ =>
        simp [foldAttrsLoop, checkAttrArgs, runsArgs_nil]
    | cons p ps =>
      simp [foldAttrsLoop, checkAttrArgs, attrRun, runsArgs_nil]
  | cons a rest ih =>
    intro args cur hne
    cases a with
    | jsxAttr a =>
      show foldAttrsLoop rest args (cur ++ [PropOrSpread.prop (attr_to_prop a)]) = _
      rw [ih args (cur ++ [PropOrSpread.prop (attr_to_prop a)]) (Or.inr (by simp))]
      cases cur with
      | nil =>
        simp [runsArgs_attr, attrRun]
      | cons p ps =>
        simp [attrRun]
    | spreadElement d e =>
      show foldAttrsLoop rest (checkAttrArgs args cur ++ [Expr.as_arg e]) [] = _
      rw [ih (checkAttrArgs args cur ++ [Expr.as_arg e]) [] (Or.inl (by simp))]
      cases cur with
      | nil =>
        have hargs : args ≠ [] := by
          rcases hne with h | h
          · exact h
          · exact absurd rfl h
        match args, hargs with
        | a :: as, _ =>
          simp [checkAttrArgs, runsArgs_spread, attrRun]
      | cons p ps =>
        have hchk : checkAttrArgs args (p :: ps) =
            args ++ [Expr.as_arg (.object dummySpan (p :: ps))] := by
          simp [checkAttrArgs]
        rw [hchk]
        simp [runsArgs_spread, attrRun]

/-- The attribute loop started empty computes exactly the run
decomposition, preceded by one empty object when the list starts with a
spread. -/
theorem foldAttrsLoop_runs (attrs : List JSXAttrOrSpread) (hne : attrs ≠ []) :
    foldAttrsLoop attrs [] [] = leadEmpty attrs ++ runsArgs attrs := by
  cases attrs with
  | nil => exact absurd rfl hne
  | cons a rest =>
    cases a with
    | jsxAttr a =>
      show foldAttrsLoop rest [] ([] ++ [PropOrSpread.prop (attr_to_prop a)]) = _
      rw [foldAttrsLoop_emit rest [] ([] ++ [PropOrSpread.prop (attr_to_prop a)])
        (Or.inr (by simp))]
      simp [leadEmpty, runsArgs_attr, attrRun]
    | spreadElement d e =>
      show foldAttrsLoop rest (checkAttrArgs [] [] ++ [Expr.as_arg e]) [] = _
      rw [foldAttrsLoop_emit rest (checkAttrArgs [] [] ++ [Expr.as_arg e]) []
        (Or.inl (by simp [checkAttrArgs]))]
      simp [checkAttrArgs, leadEmpty, runsArgs_spread, attrRun]

/-- C4: with at least one spread among the attributes, fold_attrs returns
a call whose arguments are the contiguous-run decomposition of the list
(plain-attribute runs as object literals, each spread positional, plus a
leading empty object exactly when the list starts with a spread); the
callee is the native Object.assign when use_builtins is true and the
injected _extends helper otherwise; exactly the helper path sets the
extends flag of the Helper Registry true, and the builtin path returns
the registry unchanged. -/
theorem claim_c4_spread_attrs (j : Jsx) (attrs : List JSXAttrOrSpread) (h : Helpers)
    (hs : attrs.any isSpreadAttr = true) :
    fold_attrs j attrs h =
      .ok (.call dummySpan
        (if j.use_builtins then objectAssignCallee else extendsCallee)
        (leadEmpty attrs ++ runsArgs attrs),
        if j.use_builtins then h else { h with extends_flag := true }) ∧
    (j.use_builtins = false →
      ∃ h', fold_attrs j attrs h =
          .ok (.call dummySpan extendsCallee (leadEmpty attrs ++ runsArgs attrs), h') ∧
        h'.extends_flag = true) ∧
    (j.use_builtins = true →
      fold_attrs j attrs h =
        .ok (.call dummySpan objectAssignCallee (leadEmpty attrs ++ runsArgs attrs), h)) := by
  have hne : attrs ≠ [] := by
    intro h0
    subst h0
    simp at hs
  have hempty : attrs.isEmpty = false := by
    cases attrs with
    | nil => exact absurd rfl hne
    | cons a rest => rfl
  have hmain : fold_attrs j attrs h =
      .ok (.call dummySpan
        (if j.use_builtins then objectAssignCallee else extendsCallee)
        (leadEmpty attrs ++ runsArgs attrs),
        if j.use_builtins then h else { h with extends_flag := true }) := by
    unfold fold_attrs
    rw [hempty]
    simp only [Bool.false_eq_true, if_false, hs, if_true]
    rw [foldAttrsLoop_runs attrs hne]
    cases hb : j.use_builtins with
    | true => simp
    | false => simp
  refine ⟨hmain, ?_, ?_⟩
  · intro hb
    refine ⟨{ h with extends_flag := true }, ?_, rfl⟩
    rw [hmain, hb]
    simp
  · intro hb
    rw [hmain, hb]
    simp

/-- The attribute list of the C4 example element div {...p} a="1". -/
def attrsExampleC4 : List JSXAttrOrSpread :=
  [.spreadElement ⟨5, 11⟩ (.ident ⟨⟨9, 10⟩, "p"⟩),
   .jsxAttr (.mk ⟨12, 17⟩ (.ident ⟨⟨12, 13⟩, "a"⟩)
     (some (.lit (.str ⟨14, 17⟩ "1" false))))]

/-- C4 witness: the spread-attribute law applied to the attribute list of
div {...p} a="1" with use_builtins false; the merge arguments evaluate to
the empty object, p, and the object holding a: "1", the callee is
_extends, and the extends flag becomes true. -/
theorem claim_c4_witness :
    attrsExampleC4.any isSpreadAttr = true ∧
    (fold_attrs defaultJsxPass attrsExampleC4 ⟨false⟩ =
      .ok (.call dummySpan
        (if defaultJsxPass.use_builtins then objectAssignCallee else extendsCallee)
        (leadEmpty attrsExampleC4 ++ runsArgs attrsExampleC4),
        if defaultJsxPass.use_builtins then (⟨false⟩ : Helpers)
        else { (⟨false⟩ : Helpers) with extends_flag := true }) ∧
      (defaultJsxPass.use_builtins = false →
        ∃ h', fold_attrs defaultJsxPass attrsExampleC4 ⟨false⟩ =
            .ok (.call dummySpan extendsCallee
              (leadEmpty attrsExampleC4 ++ runsArgs attrsExampleC4), h') ∧
          h'.extends_flag = true) ∧
      (defaultJsxPass.use_builtins = true →
        fold_attrs defaultJsxPass attrsExampleC4 ⟨false⟩ =
          .ok (.call dummySpan objectAssignCallee
            (leadEmpty attrsExampleC4 ++ runsArgs attrsExampleC4), ⟨false⟩))) ∧
    fold_attrs defaultJsxPass attrsExampleC4 ⟨false⟩ =
      .ok (.call dummySpan extendsCallee
        [Expr.as_arg (.object dummySpan []),
         Expr.as_arg (.ident ⟨⟨9, 10⟩, "p"⟩),
         Expr.as_arg (.object dummySpan
           [.prop (.keyValue (.ident ⟨⟨12, 13⟩, "a"⟩) (.lit (.str ⟨14, 17⟩ "1" false)))])],
        ⟨true⟩) :=
  ⟨rfl, claim_c4_spread_attrs defaultJsxPass attrsExampleC4 ⟨false⟩ rfl, rfl⟩

/-- C10: two pass configurations that differ only in throw_if_namespace
and development produce the same pass state, hence identical output AST
and identical final Helper Registry state on every module. -/
theorem claim_c10_reserved_options (parseExpr : String → Expr) (o1 o2 : Options)
    (hp : o1.pragma = o2.pragma) (hf : o1.pragma_frag = o2.pragma_frag)
    (hb : o1.use_builtins = o2.use_builtins) :
    jsx parseExpr o1 = jsx parseExpr o2 ∧
    ∀ m h, foldModule (jsx parseExpr o1) m h = foldModule (jsx parseExpr o2) m h := by
  have hj : jsx parseExpr o1 = jsx parseExpr o2 := by
    unfold jsx
    rw [hp, hf, hb]
  exact ⟨hj, fun m h => by rw [hj]⟩

def optionsA : Options := ⟨"React.createElement", "React.Fragment", true, false, false⟩

def optionsB : Options := ⟨"React.createElement", "React.Fragment", false, true, false⟩

/-- C10 witness: two concrete configurations that differ in both reserved
options (and only in them) drive the pass identically. -/
theorem claim_c10_witness :
    optionsA.pragma = optionsB.pragma ∧
    optionsA.pragma_frag = optionsB.pragma_frag ∧
    optionsA.use_builtins = optionsB.use_builtins ∧
    optionsA.throw_if_namespace ≠ optionsB.throw_if_namespace ∧
    optionsA.development ≠ optionsB.development ∧
    (jsx (fun _ => .lit (.null dummySpan)) optionsA =
        jsx (fun _ => .lit (.null dummySpan)) optionsB ∧
      ∀ m h, foldModule (jsx (fun _ => .lit (.null dummySpan)) optionsA) m h =
        foldModule (jsx (fun _ => .lit (.null dummySpan)) optionsB) m h) :=
  ⟨rfl, rfl, rfl, by decide, by decide,
   claim_c10_reserved_options (fun _ => .lit (.null dummySpan)) optionsA optionsB rfl rfl rfl⟩

/-- An expression is a fixpoint of the pass: folding it returns it
unchanged with no helper writes, from any registry state. -/
def FixE (j : Jsx) (e : Expr) : Prop := ∀ h, foldExpr j e h = .ok (e, h)

def FixOS (j : Jsx) : ExprOrSuper → Prop
  | .superE _ => True
  | .expr e => FixE j e

def FixArg (j : Jsx) : ExprOrSpread → Prop
  | .mk _ e => FixE j e

def FixProp (j : Jsx) : Prop' → Prop
  | .shorthand _ => True
  | .keyValue _ v => FixE j v

def FixPS (j : Jsx) : PropOrSpread → Prop
  | .prop p => FixProp j p
  | .spread e => FixE j e

mutual
/-- All expressions strictly inside a JSX element are pass fixpoints. -/
def InnerFixEl (j : Jsx) : JSXElement → Prop
  | .mk _ (.mk _ _ attrs _) children => InnerFixAttrs j attrs ∧ InnerFixChildren j children

def InnerFixAttrs (j : Jsx) : List JSXAttrOrSpread → Prop
  | [] => True
  | a :: rest => InnerFixAttr j a ∧ InnerFixAttrs j rest

def InnerFixAttr (j : Jsx) : JSXAttrOrSpread → Prop
  | .jsxAttr (.mk _ _ none) => True
  | .jsxAttr (.mk _ _ (some v)) => FixE j v
  | .spreadElement _ e => FixE j e

def InnerFixChildren (j : Jsx) : List JSXElementChild → Prop
  | [] => True
  | c :: rest => InnerFixChild j c ∧ InnerFixChildren j rest

def InnerFixChild (j : Jsx) : JSXElementChild → Prop
  | .jsxText _ => True
  | .jsxExprContainer _ (.jsxEmptyExpr _) => True
  | .jsxExprContainer _ (.expr e) => FixE j e
  | .jsxSpreadChild _ e => FixE j e
  | .element el => InnerFixEl j el
  | .fragment (.mk _ children) => InnerFixChildren j children
end

mutual
theorem foldJSXElement_id (j : Jsx) :
    ∀ el, InnerFixEl j el → ∀ h, foldJSXElement j el h = .ok (el, h)
  | .mk sp (.mk name osp attrs sc) children, hf, h => by
    obtain ⟨ha, hc⟩ := hf
    simp only [foldJSXElement, foldAttrsList_id j attrs ha,
      foldChildren_id j children hc, fatal_bind_ok]

theorem foldAttrsList_id (j : Jsx) :
    ∀ l, InnerFixAttrs j l → ∀ h, foldAttrsList j l h = .ok (l, h)
  | [], _, _ => rfl
  | a :: rest, hf, h => by
    obtain ⟨h1, h2⟩ := hf
    simp only [foldAttrsList, foldAttrOrSpread_id j a h1,
      foldAttrsList_id j rest h2, fatal_bind_ok]

theorem foldAttrOrSpread_id (j : Jsx) :
    ∀ a, InnerFixAttr j a → ∀ h, foldAttrOrSpread j a h = .ok (a, h)
  | .jsxAttr (.mk _ _ none), _, _ => rfl
  | .jsxAttr (.mk sp name (some v)), hf, h => by
    have hv : ∀ h2, foldExpr j v h2 = .ok (v, h2) := hf
    simp only [foldAttrOrSpread, foldOptExpr, hv, fatal_bind_ok]
  | .spreadElement d e, hf, h => by
    have hv : ∀ h2, foldExpr j e h2 = .ok (e, h2) := hf
    simp only [foldAttrOrSpread, hv, fatal_bind_ok]

theorem foldChildren_id (j : Jsx) :
    ∀ l, InnerFixChildren j l → ∀ h, foldChildren j l h = .ok (l, h)
  | [], _, _ => rfl
  | c :: rest, hf, h => by
    obtain ⟨h1, h2⟩ := hf
    simp only [foldChildren, foldChild_id j c h1,
      foldChildren_id j rest h2, fatal_bind_ok]

theorem foldChild_id (j : Jsx) :
    ∀ c, InnerFixChild j c → ∀ h, foldChild j c h = .ok (c, h)
  | .jsxText _, _, _ => rfl
  | .jsxExprContainer _ (.jsxEmptyExpr _), _, _ => rfl
  | .jsxExprContainer sp (.expr e), hf, h => by
    have hv : ∀ h2, foldExpr j e h2 = .ok (e, h2) := hf
    simp only [foldChild, hv, fatal_bind_ok]
  | .jsxSpreadChild sp e, hf, h => by
    have hv : ∀ h2, foldExpr j e h2 = .ok (e, h2) := hf
    simp only [foldChild, hv, fatal_bind_ok]
  | .element el, hf, h => by
    have hv : InnerFixEl j el := hf
    simp only [foldChild, foldJSXElement_id j el hv, fatal_bind_ok]
  | .fragment (.mk sp children), hf, h => by
    have hv : InnerFixChildren j children := hf
    simp only [foldChild, foldJSXFragment, foldChildren_id j children hv, fatal_bind_ok]
end

theorem foldJSXFragment_id (j : Jsx) (sp : Span) (children : List JSXElementChild)
    (hf : InnerFixChildren j children) (h : Helpers) :
    foldJSXFragment j (.mk sp children) h = .ok (.mk sp children, h) := by
  simp only [foldJSXFragment, foldChildren_id j children hf, fatal_bind_ok]

theorem fixE_thisE (j : Jsx) (sp : Span) : FixE j (.thisE sp) := fun _ => rfl

theorem fixE_ident (j : Jsx) (i : Ident) : FixE j (.ident i) := fun _ => rfl

theorem fixE_lit (j : Jsx) (l : Lit) : FixE j (.lit l) := fun _ => rfl

theorem foldExprOrSuper_id (j : Jsx) :
    ∀ os, FixOS j os → ∀ h, foldExprOrSuper j os h = .ok (os, h)
  | .superE _, _, _ => rfl
  | .expr e, hf, h => by
    have hv : ∀ h2, foldExpr j e h2 = .ok (e, h2) := hf
    simp only [foldExprOrSuper, hv, fatal_bind_ok]

theorem foldArgs_id (j : Jsx) :
    ∀ args, (∀ a ∈ args, FixArg j a) → ∀ h, foldArgs j args h = .ok (args, h)
  | [], _, _ => rfl
  | .mk sp e :: rest, hf, h => by
    have he : ∀ h2, foldExpr j e h2 = .ok (e, h2) := hf _ (List.mem_cons_self _ _)
    have hrest := foldArgs_id j rest fun a ha => hf a (List.mem_cons_of_mem _ ha)
    simp only [foldArgs, foldArg, he, hrest, fatal_bind_ok]

theorem foldProps_id (j : Jsx) :
    ∀ props, (∀ p ∈ props, FixPS j p) → ∀ h, foldProps j props h = .ok (props, h)
  | [], _, _ => rfl
  | .prop (.shorthand i) :: rest, hf, h => by
    have hrest := foldProps_id j rest fun p hp => hf p (List.mem_cons_of_mem _ hp)
    simp only [foldProps, foldPropOrSpread, foldProp, hrest, fatal_bind_ok]
  | .prop (.keyValue k v) :: rest, hf, h => by
    have hv : ∀ h2, foldExpr j v h2 = .ok (v, h2) := hf _ (List.mem_cons_self _ _)
    have hrest := foldProps_id j rest fun p hp => hf p (List.mem_cons_of_mem _ hp)
    simp only [foldProps, foldPropOrSpread, foldProp, hv, hrest, fatal_bind_ok]
  | .spread e :: rest, hf, h => by
    have hv : ∀ h2, foldExpr j e h2 = .ok (e, h2) := hf _ (List.mem_cons_self _ _)
    have hrest := foldProps_id j rest fun p hp => hf p (List.mem_cons_of_mem _ hp)
    simp only [foldProps, foldPropOrSpread, hv, hrest, fatal_bind_ok]

theorem fixE_call (j : Jsx) (sp : Span) (callee : ExprOrSuper) (args : List ExprOrSpread)
    (hc : FixOS j callee) (ha : ∀ a ∈ args, FixArg j a) :
    FixE j (.call sp callee args) := by
  intro h
  simp only [foldExpr, foldExprOrSuper_id j callee hc, foldArgs_id j args ha, fatal_bind_ok]

theorem fixE_member (j : Jsx) (sp : Span) (obj : ExprOrSuper) (prop : Expr) (computed : Bool)
    (ho : FixOS j obj) (hp : FixE j prop) : FixE j (.member sp obj prop computed) := by
  intro h
  have hp2 : ∀ h2, foldExpr j prop h2 = .ok (prop, h2) := hp
  simp only [foldExpr, foldExprOrSuper_id j obj ho, hp2, fatal_bind_ok]

theorem fixE_object (j : Jsx) (sp : Span) (props : List PropOrSpread)
    (hp : ∀ p ∈ props, FixPS j p) : FixE j (.object sp props) := by
  intro h
  simp only [foldExpr, foldProps_id j props hp, fatal_bind_ok]

theorem fixE_fragment (j : Jsx) (sp : Span) (children : List JSXElementChild)
    (hc : InnerFixChildren j children) : FixE j (.jsxFragment (.mk sp children)) := by
  intro h
  simp only [foldExpr, foldJSXFragment_id j sp children hc, fatal_bind_ok]

theorem jsx_elem_to_expr_shape (j : Jsx) :
    ∀ el h r h', jsx_elem_to_expr j el h = .ok (r, h') →
      ∃ sp args, r = .call sp j.pragma args
  | .mk sp (.mk name osp attrs sc) children, h, r, h', heq => by
    simp only [jsx_elem_to_expr] at heq
    cases hn : jsx_name name with
    | error e =>
      rw [hn] at heq
      simp only [fatal_bind_error] at heq
      exact Except.noConfusion heq
    | ok ne =>
      rw [hn] at heq
      simp only [fatal_bind_ok] at heq
      cases hfa : fold_attrs j attrs h with
      | error e2 =>
        rw [hfa] at heq
        simp only [fatal_bind_error] at heq
        exact Except.noConfusion heq
      | ok pa =>
        obtain ⟨attrsExpr, h1⟩ := pa
        rw [hfa] at heq
        simp only [fatal_bind_ok] at heq
        cases hca : jsx_children_to_args j children h1 with
        | error e3 =>
          rw [hca] at heq
          simp only [fatal_bind_error] at heq
          exact Except.noConfusion heq
        | ok pc =>
          obtain ⟨childArgs, h2⟩ := pc
          rw [hca] at heq
          simp only [fatal_bind_ok, Except.ok.injEq, Prod.mk.injEq] at heq
          exact ⟨sp, _, heq.1.symm⟩

theorem fixE_not_jsxElement (j : Jsx) (el : JSXElement) : ¬ FixE j (.jsxElement el) := by
  intro hf
  have h0 : foldExpr j (.jsxElement el) ⟨false⟩ = .ok (.jsxElement el, ⟨false⟩) := hf ⟨false⟩
  simp only [foldExpr] at h0
  cases hel : foldJSXElement j el ⟨false⟩ with
  | error e =>
    rw [hel] at h0
    simp only [fatal_bind_error] at h0
    exact Except.noConfusion h0
  | ok p =>
    obtain ⟨el1, h1⟩ := p
    rw [hel] at h0
    simp only [fatal_bind_ok] at h0
    obtain ⟨sp2, args2, hcall⟩ := jsx_elem_to_expr_shape j el1 h1 _ _ h0
    exact Expr.noConfusion hcall

theorem fixE_paren (j : Jsx) (sp : Span) (e : Expr) (he : FixE j e) :
    FixE j (.paren sp e) := by
  intro h
  have he2 : ∀ h2, foldExpr j e h2 = .ok (e, h2) := he
  simp only [foldExpr, he2, fatal_bind_ok]
  cases e with
  | jsxElement el => exact absurd he (fixE_not_jsxElement j el)
  | thisE sp2 => rfl
  | ident i => rfl
  | lit l => rfl
  | call a b c => rfl
  | member a b c d => rfl
  | object a b => rfl
  | paren a b => rfl
  | jsxFragment f => rfl

theorem convert_obj_fix (j : Jsx) : ∀ obj, FixOS j (convert_obj obj)
  | .ident i => by
    unfold convert_obj
    by_cases hthis : i.sym = "this"
    · rw [if_pos hthis]
      exact fixE_thisE j i.span
    · rw [if_neg hthis]
      exact fixE_ident j i
  | .member obj prop => by
    show FixOS j (.expr (.member (JSXObject.spanOf (.member obj prop)) (convert_obj obj)
      (.ident prop) false))
    exact fixE_member j _ (convert_obj obj) _ false (convert_obj_fix j obj) (fixE_ident j prop)

theorem jsx_name_fix (j : Jsx) (name : JSXElementName) (ne : Expr)
    (heq : jsx_name name = .ok ne) : FixE j ne := by
  cases name with
  | ident i =>
    obtain ⟨sp, sym⟩ := i
    obtain ⟨l⟩ := sym
    cases l with
    | nil => exact Except.noConfusion heq
    | cons c rest =>
      simp only [jsx_name] at heq
      split at heq
      · simp only [Except.ok.injEq] at heq
        subst heq
        exact fixE_thisE j sp
      · split at heq
        · simp only [Except.ok.injEq] at heq
          subst heq
          exact fixE_lit j _
        · simp only [Except.ok.injEq] at heq
          subst heq
          exact fixE_ident j _
  | namespacedName ns nm =>
    simp only [jsx_name, Except.ok.injEq] at heq
    subst heq
    exact fixE_lit j _
  | memberExpr obj prop =>
    simp only [jsx_name, Except.ok.injEq] at heq
    subst heq
    exact fixE_member j _ _ _ _ (convert_obj_fix j obj) (fixE_ident j prop)

theorem attr_to_prop_fix (j : Jsx) :
    ∀ a, InnerFixAttr j (.jsxAttr a) → FixProp j (attr_to_prop a)
  | .mk _ _ none, _ => fixE_lit j _
  | .mk _ _ (some _), hv => hv

theorem attrsToProps_fix (j : Jsx) :
    ∀ attrs, InnerFixAttrs j attrs → ∀ props, attrsToProps attrs = .ok props →
      ∀ p ∈ props, FixPS j p
  | [], _, props, heq, p, hp => by
    simp only [attrsToProps, Except.ok.injEq] at heq
    subst heq
    cases hp
  | .jsxAttr a :: rest, hf, props, heq, p, hp => by
    obtain ⟨h1, h2⟩ := hf
    simp only [attrsToProps] at heq
    cases hre : attrsToProps rest with
    | error e =>
      rw [hre] at heq
      simp only [fatal_bind_error] at heq
      exact Except.noConfusion heq
    | ok ps =>
      rw [hre] at heq
      simp only [fatal_bind_ok, Except.ok.injEq] at heq
      subst heq
      rcases List.mem_cons.mp hp with h3 | h3
      · subst h3
        exact attr_to_prop_fix j a h1
      · exact attrsToProps_fix j rest h2 ps hre p h3
  | .spreadElement d e :: rest, hf, props, heq, p, hp => by
    simp only [attrsToProps] at heq
    exact Except.noConfusion heq

theorem checkAttrArgs_fix (j : Jsx) (args : List ExprOrSpread) (cur : List PropOrSpread)
    (ha : ∀ a ∈ args, FixArg j a) (hc : ∀ p ∈ cur, FixPS j p) :
    ∀ a ∈ checkAttrArgs args cur, FixArg j a := by
  intro a hmem
  unfold checkAttrArgs at hmem
  split at hmem
  · rcases List.mem_append.mp hmem with hm | hm
    · exact ha a hm
    · rcases List.mem_singleton.mp hm with rfl
      exact fixE_object j _ cur hc
  · exact ha a hmem

theorem foldAttrsLoop_fix (j : Jsx) :
    ∀ l, InnerFixAttrs j l →
      ∀ args cur, (∀ a ∈ args, FixArg j a) → (∀ p ∈ cur, FixPS j p) →
        ∀ a ∈ foldAttrsLoop l args cur, FixArg j a
  | [], _, args, cur, ha, hc, a, hmem => checkAttrArgs_fix j args cur ha hc a hmem
  | .jsxAttr at1 :: rest, hf, args, cur, ha, hc, a, hmem => by
    obtain ⟨h1, h2⟩ := hf
    have hmem2 : a ∈ foldAttrsLoop rest args (cur ++ [PropOrSpread.prop (attr_to_prop at1)]) :=
      hmem
    refine foldAttrsLoop_fix j rest h2 args (cur ++ [PropOrSpread.prop (attr_to_prop at1)])
      ha ?_ a hmem2
    intro p hp
    rcases List.mem_append.mp hp with hm | hm
    · exact hc p hm
    · rcases List.mem_singleton.mp hm with rfl
      exact attr_to_prop_fix j at1 h1
  | .spreadElement d e :: rest, hf, args, cur, ha, hc, a, hmem => by
    obtain ⟨h1, h2⟩ := hf
    have hmem2 : a ∈ foldAttrsLoop rest (checkAttrArgs args cur ++ [Expr.as_arg e]) [] := hmem
    refine foldAttrsLoop_fix j rest h2 (checkAttrArgs args cur ++ [Expr.as_arg e]) []
      ?_ (by simp) a hmem2
    intro a2 ha2
    rcases List.mem_append.mp ha2 with hm | hm
    · exact checkAttrArgs_fix j args cur ha hc a2 hm
    · rcases List.mem_singleton.mp hm with rfl
      exact h1

theorem fold_attrs_fix (j : Jsx) (attrs : List JSXAttrOrSpread)
    (hf : InnerFixAttrs j attrs) (h : Helpers) (ae : Expr) (h' : Helpers)
    (heq : fold_attrs j attrs h = .ok (ae, h')) : FixE j ae := by
  unfold fold_attrs at heq
  by_cases he : attrs.isEmpty = true
  · rw [if_pos he] at heq
    simp only [Except.ok.injEq, Prod.mk.injEq] at heq
    rw [← heq.1]
    exact fixE_lit j _
  · rw [if_neg he] at heq
    by_cases hs : attrs.any isSpreadAttr = true
    · rw [if_pos hs] at heq
      by_cases hb : j.use_builtins = true
      · rw [if_pos hb] at heq
        simp only [Except.ok.injEq, Prod.mk.injEq] at heq
        rw [← heq.1]
        refine fixE_call j _ _ _ ?_ (foldAttrsLoop_fix j attrs hf [] [] (by simp) (by simp))
        exact fixE_member j _ _ _ _ (fixE_ident j _) (fixE_ident j _)
      · rw [if_neg hb] at heq
        simp only [Except.ok.injEq, Prod.mk.injEq] at heq
        rw [← heq.1]
        refine fixE_call j _ _ _ ?_ (foldAttrsLoop_fix j attrs hf [] [] (by simp) (by simp))
        exact fixE_ident j _
    · rw [if_neg hs] at heq
      cases hap : attrsToProps attrs with
      | error e =>
        rw [hap] at heq
        simp only [fatal_bind_error] at heq
        exact Except.noConfusion heq
      | ok props =>
        rw [hap] at heq
        simp only [fatal_bind_ok, Except.ok.injEq, Prod.mk.injEq] at heq
        rw [← heq.1]
        exact fixE_object j _ props (attrsToProps_fix j attrs hf props hap)

mutual
theorem jsx_elem_to_expr_fix (j : Jsx) (Hp : FixOS j j.pragma) (Hf : FixArg j j.pragma_frag) :
    ∀ el, InnerFixEl j el → ∀ h r h', jsx_elem_to_expr j el h = .ok (r, h') → FixE j r
  | .mk sp (.mk name osp attrs sc) children, hf, h, r, h', heq => by
    obtain ⟨ha, hc⟩ := hf
    simp only [jsx_elem_to_expr] at heq
    cases hn : jsx_name name with
    | error e =>
      rw [hn] at heq
      simp only [fatal_bind_error] at heq
      exact Except.noConfusion heq
    | ok ne =>
      rw [hn] at heq
      simp only [fatal_bind_ok] at heq
      cases hfa : fold_attrs j attrs h with
      | error e2 =>
        rw [hfa] at heq
        simp only [fatal_bind_error] at heq
        exact Except.noConfusion heq
      | ok pa =>
        obtain ⟨attrsExpr, h1⟩ := pa
        rw [hfa] at heq
        simp only [fatal_bind_ok] at heq
        cases hca : jsx_children_to_args j children h1 with
        | error e3 =>
          rw [hca] at heq
          simp only [fatal_bind_error] at heq
          exact Except.noConfusion heq
        | ok pc =>
          obtain ⟨childArgs, h2⟩ := pc
          rw [hca] at heq
          simp only [fatal_bind_ok, Except.ok.injEq, Prod.mk.injEq] at heq
          rw [← heq.1]
          refine fixE_call j sp j.pragma _ Hp ?_
          intro a hmem
          rcases List.mem_cons.mp hmem with rfl | hmem2
          · exact jsx_name_fix j name ne hn
          · rcases List.mem_cons.mp hmem2 with rfl | hmem3
            · exact fold_attrs_fix j attrs ha h attrsExpr h1 hfa
            · exact jsx_children_to_args_fix j Hp Hf children hc h1 childArgs h2 hca a hmem3

theorem jsx_frag_to_expr_fix (j : Jsx) (Hp : FixOS j j.pragma) (Hf : FixArg j j.pragma_frag) :
    ∀ f, InnerFixChild j (.fragment f) → ∀ h r h', jsx_frag_to_expr j f h = .ok (r, h') →
      FixE j r
  | .mk sp children, hf, h, r, h', heq => by
    have hc : InnerFixChildren j children := hf
    simp only [jsx_frag_to_expr] at heq
    cases hca : jsx_children_to_args j children h with
    | error e3 =>
      rw [hca] at heq
      simp only [fatal_bind_error] at heq
      exact Except.noConfusion heq
    | ok pc =>
      obtain ⟨childArgs, h2⟩ := pc
      rw [hca] at heq
      simp only [fatal_bind_ok, Except.ok.injEq, Prod.mk.injEq] at heq
      rw [← heq.1]
      refine fixE_call j sp j.pragma _ Hp ?_
      intro a hmem
      rcases List.mem_cons.mp hmem with rfl | hmem2
      · exact Hf
      · rcases List.mem_cons.mp hmem2 with rfl | hmem3
        · exact fixE_lit j _
        · exact jsx_children_to_args_fix j Hp Hf children hc h childArgs h2 hca a hmem3

theorem jsx_elem_child_to_expr_fix (j : Jsx) (Hp : FixOS j j.pragma)
    (Hf : FixArg j j.pragma_frag) :
    ∀ c, InnerFixChild j c → ∀ h o h', jsx_elem_child_to_expr j c h = .ok (o, h') →
      ∀ a, o = some a → FixArg j a
  | .jsxText t, _, h, o, h', heq, a, hsome => by
    simp only [jsx_elem_child_to_expr] at heq
    split at heq
    · simp only [Except.ok.injEq, Prod.mk.injEq] at heq
      rw [← heq.1] at hsome
      exact Option.noConfusion hsome
    · simp only [Except.ok.injEq, Prod.mk.injEq] at heq
      rw [← heq.1] at hsome
      simp only [Option.some.injEq] at hsome
      rw [← hsome]
      exact fixE_lit j _
  | .jsxExprContainer sp (.expr e), hf, h, o, h', heq, a, hsome => by
    have hv : FixE j e := hf
    simp only [jsx_elem_child_to_expr, Except.ok.injEq, Prod.mk.injEq] at heq
    rw [← heq.1] at hsome
    simp only [Option.some.injEq] at hsome
    rw [← hsome]
    exact hv
  | .jsxExprContainer sp (.jsxEmptyExpr s2), _, h, o, h', heq, a, hsome => by
    simp only [jsx_elem_child_to_expr, Except.ok.injEq, Prod.mk.injEq] at heq
    rw [← heq.1] at hsome
    exact Option.noConfusion hsome
  | .jsxSpreadChild sp e, _, h, o, h', heq, a, hsome => by
    simp only [jsx_elem_child_to_expr] at heq
    exact Except.noConfusion heq
  | .element el, hf, h, o, h', heq, a, hsome => by
    have hv : InnerFixEl j el := hf
    simp only [jsx_elem_child_to_expr] at heq
    cases hel : jsx_elem_to_expr j el h with
    | error e =>
      rw [hel] at heq
      simp only [fatal_bind_error] at heq
      exact Except.noConfusion heq
    | ok p =>
      obtain ⟨e1, h1⟩ := p
      rw [hel] at heq
      simp only [fatal_bind_ok, Except.ok.injEq, Prod.mk.injEq] at heq
      rw [← heq.1] at hsome
      simp only [Option.some.injEq] at hsome
      rw [← hsome]
      exact jsx_elem_to_expr_fix j Hp Hf el hv h e1 h1 hel
  | .fragment f, hf, h, o, h', heq, a, hsome => by
    simp only [jsx_elem_child_to_expr] at heq
    cases hel : jsx_frag_to_expr j f h with
    | error e =>
      rw [hel] at heq
      simp only [fatal_bind_error] at heq
      exact Except.noConfusion heq
    | ok p =>
      obtain ⟨e1, h1⟩ := p
      rw [hel] at heq
      simp only [fatal_bind_ok, Except.ok.injEq, Prod.mk.injEq] at heq
      rw [← heq.1] at hsome
      simp only [Option.some.injEq] at hsome
      rw [← hsome]
      exact jsx_frag_to_expr_fix j Hp Hf f hf h e1 h1 hel

theorem jsx_children_to_args_fix (j : Jsx) (Hp : FixOS j j.pragma)
    (Hf : FixArg j j.pragma_frag) :
    ∀ cs, InnerFixChildren j cs → ∀ h args h',
      jsx_children_to_args j cs h = .ok (args, h') → ∀ a ∈ args, FixArg j a
  | [], _, h, args, h', heq, a, hmem => by
    simp only [jsx_children_to_args, Except.ok.injEq, Prod.mk.injEq] at heq
    rw [← heq.1] at hmem
    cases hmem
  | c :: rest, hf, h, args, h', heq, a, hmem => by
    obtain ⟨h1, h2⟩ := hf
    simp only [jsx_children_to_args] at heq
    cases hc1 : jsx_elem_child_to_expr j c h with
    | error e =>
      rw [hc1] at heq
      simp only [fatal_bind_error] at heq
      exact Except.noConfusion heq
    | ok p1 =>
      obtain ⟨o, hh1⟩ := p1
      rw [hc1] at heq
      simp only [fatal_bind_ok] at heq
      cases hc2 : jsx_children_to_args j rest hh1 with
      | error e =>
        rw [hc2] at heq
        simp only [fatal_bind_error] at heq
        exact Except.noConfusion heq
      | ok p2 =>
        obtain ⟨args2, hh2⟩ := p2
        rw [hc2] at heq
        simp only [fatal_bind_ok, Except.ok.injEq, Prod.mk.injEq] at heq
        rw [← heq.1] at hmem
        rcases List.mem_append.mp hmem with hm | hm
        · cases o with
          | none => cases hm
          | some a0 =>
            simp only [Option.toList, List.mem_singleton] at hm
            subst hm
            exact jsx_elem_child_to_expr_fix j Hp Hf c h1 h (some a) hh1 hc1 a rfl
        · exact jsx_children_to_args_fix j Hp Hf rest h2 hh1 args2 hh2 hc2 a hm
end

mutual
theorem foldExpr_fix (j : Jsx) (Hp : FixOS j j.pragma) (Hf : FixArg j j.pragma_frag) :
    ∀ e h e' h', foldExpr j e h = .ok (e', h') → FixE j e'
  | .thisE sp, h, e', h', heq => by
    simp only [foldExpr, Except.ok.injEq, Prod.mk.injEq] at heq
    rw [← heq.1]
    exact fixE_thisE j sp
  | .ident i, h, e', h', heq => by
    simp only [foldExpr, Except.ok.injEq, Prod.mk.injEq] at heq
    rw [← heq.1]
    exact fixE_ident j i
  | .lit l, h, e', h', heq => by
    simp only [foldExpr, Except.ok.injEq, Prod.mk.injEq] at heq
    rw [← heq.1]
    exact fixE_lit j l
  | .call sp callee args, h, e', h', heq => by
    simp only [foldExpr] at heq
    cases hos : foldExprOrSuper j callee h with
    | error e =>
      rw [hos] at heq
      simp only [fatal_bind_error] at heq
      exact Except.noConfusion heq
    | ok p1 =>
      obtain ⟨callee1, h1⟩ := p1
      rw [hos] at heq
      simp only [fatal_bind_ok] at heq
      cases har : foldArgs j args h1 with
      | error e =>
        rw [har] at heq
        simp only [fatal_bind_error] at heq
        exact Except.noConfusion heq
      | ok p2 =>
        obtain ⟨args1, h2⟩ := p2
        rw [har] at heq
        simp only [fatal_bind_ok, Except.ok.injEq, Prod.mk.injEq] at heq
        rw [← heq.1]
        exact fixE_call j sp callee1 args1
          (foldExprOrSuper_fix j Hp Hf callee h callee1 h1 hos)
          (foldArgs_fix j Hp Hf args h1 args1 h2 har)
  | .member sp obj prop computed, h, e', h', heq => by
    simp only [foldExpr] at heq
    cases hos : foldExprOrSuper j obj h with
    | error e =>
      rw [hos] at heq
      simp only [fatal_bind_error] at heq
      exact Except.noConfusion heq
    | ok p1 =>
      obtain ⟨obj1, h1⟩ := p1
      rw [hos] at heq
      simp only [fatal_bind_ok] at heq
      cases hpr : foldExpr j prop h1 with
      | error e =>
        rw [hpr] at heq
        simp only [fatal_bind_error] at heq
        exact Except.noConfusion heq
      | ok p2 =>
        obtain ⟨prop1, h2⟩ := p2
        rw [hpr] at heq
        simp only [fatal_bind_ok, Except.ok.injEq, Prod.mk.injEq] at heq
        rw [← heq.1]
        exact fixE_member j sp obj1 prop1 computed
          (foldExprOrSuper_fix j Hp Hf obj h obj1 h1 hos)
          (foldExpr_fix j Hp Hf prop h1 prop1 h2 hpr)
  | .object sp props, h, e', h', heq => by
    simp only [foldExpr] at heq
    cases hps : foldProps j props h with
    | error e =>
      rw [hps] at heq
      simp only [fatal_bind_error] at heq
      exact Except.noConfusion heq
    | ok p1 =>
      obtain ⟨props1, h1⟩ := p1
      rw [hps] at heq
      simp only [fatal_bind_ok, Except.ok.injEq, Prod.mk.injEq] at heq
      rw [← heq.1]
      exact fixE_object j sp props1 (foldProps_fix j Hp Hf props h props1 h1 hps)
  | .paren sp e, h, e', h', heq => by
    simp only [foldExpr] at heq
    cases he1 : foldExpr j e h with
    | error e2 =>
      rw [he1] at heq
      simp only [fatal_bind_error] at heq
      exact Except.noConfusion heq
    | ok p1 =>
      obtain ⟨e1, h1⟩ := p1
      rw [he1] at heq
      simp only [fatal_bind_ok] at heq
      have hfix1 : FixE j e1 := foldExpr_fix j Hp Hf e h e1 h1 he1
      cases e1 with
      | jsxElement el => exact absurd hfix1 (fixE_not_jsxElement j el)
      | thisE a =>
        simp only [Except.ok.injEq, Prod.mk.injEq] at heq
        rw [← heq.1]
        exact fixE_paren j sp _ hfix1
      | ident a =>
        simp only [Except.ok.injEq, Prod.mk.injEq] at heq
        rw [← heq.1]
        exact fixE_paren j sp _ hfix1
      | lit a =>
        simp only [Except.ok.injEq, Prod.mk.injEq] at heq
        rw [← heq.1]
        exact fixE_paren j sp _ hfix1
      | call a b c =>
        simp only [Except.ok.injEq, Prod.mk.injEq] at heq
        rw [← heq.1]
        exact fixE_paren j sp _ hfix1
      | member a b c d =>
        simp only [Except.ok.injEq, Prod.mk.injEq] at heq
        rw [← heq.1]
        exact fixE_paren j sp _ hfix1
      | object a b =>
        simp only [Except.ok.injEq, Prod.mk.injEq] at heq
        rw [← heq.1]
        exact fixE_paren j sp _ hfix1
      | paren a b =>
        simp only [Except.ok.injEq, Prod.mk.injEq] at heq
        rw [← heq.1]
        exact fixE_paren j sp _ hfix1
      | jsxFragment f =>
        simp only [Except.ok.injEq, Prod.mk.injEq] at heq
        rw [← heq.1]
        exact fixE_paren j sp _ hfix1
  | .jsxElement el, h, e', h', heq => by
    simp only [foldExpr] at heq
    cases hel : foldJSXElement j el h with
    | error e =>
      rw [hel] at heq
      simp only [fatal_bind_error] at heq
      exact Except.noConfusion heq
    | ok p1 =>
      obtain ⟨el1, h1⟩ := p1
      rw [hel] at heq
      simp only [fatal_bind_ok] at heq
      exact jsx_elem_to_expr_fix j Hp Hf el1
        (foldJSXElement_fix j Hp Hf el h el1 h1 hel) h1 e' h' heq
  | .jsxFragment f, h, e', h', heq => by
    simp only [foldExpr] at heq
    cases hfr : foldJSXFragment j f h with
    | error e =>
      rw [hfr] at heq
      simp only [fatal_bind_error] at heq
      exact Except.noConfusion heq
    | ok p1 =>
      obtain ⟨f1, h1⟩ := p1
      rw [hfr] at heq
      simp only [fatal_bind_ok, Except.ok.injEq, Prod.mk.injEq] at heq
      rw [← heq.1]
      have hin := foldJSXFragment_fix j Hp Hf f h f1 h1 hfr
      cases f1 with
      | mk sp1 cs1 => exact fixE_fragment j sp1 cs1 hin

theorem foldExprOrSuper_fix (j : Jsx) (Hp : FixOS j j.pragma) (Hf : FixArg j j.pragma_frag) :
    ∀ os h os' h', foldExprOrSuper j os h = .ok (os', h') → FixOS j os'
  | .superE sp, h, os', h', heq => by
    simp only [foldExprOrSuper, Except.ok.injEq, Prod.mk.injEq] at heq
    rw [← heq.1]
    trivial
  | .expr e, h, os', h', heq => by
    simp only [foldExprOrSuper] at heq
    cases he : foldExpr j e h with
    | error e2 =>
      rw [he] at heq
      simp only [fatal_bind_error] at heq
      exact Except.noConfusion heq
    | ok p1 =>
      obtain ⟨e1, h1⟩ := p1
      rw [he] at heq
      simp only [fatal_bind_ok, Except.ok.injEq, Prod.mk.injEq] at heq
      rw [← heq.1]
      show FixE j e1
      exact foldExpr_fix j Hp Hf e h e1 h1 he

theorem foldArg_fix (j : Jsx) (Hp : FixOS j j.pragma) (Hf : FixArg j j.pragma_frag) :
    ∀ a h a' h', foldArg j a h = .ok (a', h') → FixArg j a'
  | .mk sp e, h, a', h', heq => by
    simp only [foldArg] at heq
    cases he : foldExpr j e h with
    | error e2 =>
      rw [he] at heq
      simp only [fatal_bind_error] at heq
      exact Except.noConfusion heq
    | ok p1 =>
      obtain ⟨e1, h1⟩ := p1
      rw [he] at heq
      simp only [fatal_bind_ok, Except.ok.injEq, Prod.mk.injEq] at heq
      rw [← heq.1]
      show FixE j e1
      exact foldExpr_fix j Hp Hf e h e1 h1 he

theorem foldArgs_fix (j : Jsx) (Hp : FixOS j j.pragma) (Hf : FixArg j j.pragma_frag) :
    ∀ args h args' h', foldArgs j args h = .ok (args', h') → ∀ a ∈ args', FixArg j a
  | [], h, args', h', heq, a, hmem => by
    simp only [foldArgs, Except.ok.injEq, Prod.mk.injEq] at heq
    rw [← heq.1] at hmem
    cases hmem
  | a0 :: rest, h, args', h', heq, a, hmem => by
    simp only [foldArgs] at heq
    cases ha0 : foldArg j a0 h with
    | error e2 =>
      rw [ha0] at heq
      simp only [fatal_bind_error] at heq
      exact Except.noConfusion heq
    | ok p1 =>
      obtain ⟨a1, h1⟩ := p1
      rw [ha0] at heq
      simp only [fatal_bind_ok] at heq
      cases hre : foldArgs j rest h1 with
      | error e2 =>
        rw [hre] at heq
        simp only [fatal_bind_error] at heq
        exact Except.noConfusion heq
      | ok p2 =>
        obtain ⟨rest1, h2⟩ := p2
        rw [hre] at heq
        simp only [fatal_bind_ok, Except.ok.injEq, Prod.mk.injEq] at heq
        rw [← heq.1] at hmem
        rcases List.mem_cons.mp hmem with rfl | hm
        · exact foldArg_fix j Hp Hf a0 h a h1 ha0
        · exact foldArgs_fix j Hp Hf rest h1 rest1 h2 hre a hm

theorem foldProp_fix (j : Jsx) (Hp : FixOS j j.pragma) (Hf : FixArg j j.pragma_frag) :
    ∀ p h p' h', foldProp j p h = .ok (p', h') → FixProp j p'
  | .shorthand i, h, p', h', heq => by
    simp only [foldProp, Except.ok.injEq, Prod.mk.injEq] at heq
    rw [← heq.1]
    trivial
  | .keyValue k v, h, p', h', heq => by
    simp only [foldProp] at heq
    cases hv : foldExpr j v h with
    | error e2 =>
      rw [hv] at heq
      simp only [fatal_bind_error] at heq
      exact Except.noConfusion heq
    | ok p1 =>
      obtain ⟨v1, h1⟩ := p1
      rw [hv] at heq
      simp only [fatal_bind_ok, Except.ok.injEq, Prod.mk.injEq] at heq
      rw [← heq.1]
      show FixE j v1
      exact foldExpr_fix j Hp Hf v h v1 h1 hv

theorem foldPropOrSpread_fix (j : Jsx) (Hp : FixOS j j.pragma) (Hf : FixArg j j.pragma_frag) :
    ∀ p h p' h', foldPropOrSpread j p h = .ok (p', h') → FixPS j p'
  | .prop p, h, p', h', heq => by
    simp only [foldPropOrSpread] at heq
    cases hp : foldProp j p h with
    | error e2 =>
      rw [hp] at heq
      simp only [fatal_bind_error] at heq
      exact Except.noConfusion heq
    | ok p1 =>
      obtain ⟨p2, h1⟩ := p1
      rw [hp] at heq
      simp only [fatal_bind_ok, Except.ok.injEq, Prod.mk.injEq] at heq
      rw [← heq.1]
      show FixProp j p2
      exact foldProp_fix j Hp Hf p h p2 h1 hp
  | .spread e, h, p', h', heq => by
    simp only [foldPropOrSpread] at heq
    cases he : foldExpr j e h with
    | error e2 =>
      rw [he] at heq
      simp only [fatal_bind_error] at heq
      exact Except.noConfusion heq
    | ok p1 =>
      obtain ⟨e1, h1⟩ := p1
      rw [he] at heq
      simp only [fatal_bind_ok, Except.ok.injEq, Prod.mk.injEq] at heq
      rw [← heq.1]
      show FixE j e1
      exact foldExpr_fix j Hp Hf e h e1 h1 he

theorem foldProps_fix (j : Jsx) (Hp : FixOS j j.pragma) (Hf : FixArg j j.pragma_frag) :
    ∀ props h props' h', foldProps j props h = .ok (props', h') → ∀ p ∈ props', FixPS j p
  | [], h, props', h', heq, p, hmem => by
    simp only [foldProps, Except.ok.injEq, Prod.mk.injEq] at heq
    rw [← heq.1] at hmem
    cases hmem
  | p0 :: rest, h, props', h', heq, p, hmem => by
    simp only [foldProps] at heq
    cases hp0 : foldPropOrSpread j p0 h with
    | error e2 =>
      rw [hp0] at heq
      simp only [fatal_bind_error] at heq
      exact Except.noConfusion heq
    | ok p1 =>
      obtain ⟨p2, h1⟩ := p1
      rw [hp0] at heq
      simp only [fatal_bind_ok] at heq
      cases hre : foldProps j rest h1 with
      | error e2 =>
        rw [hre] at heq
        simp only [fatal_bind_error] at heq
        exact Except.noConfusion heq
      | ok p3 =>
        obtain ⟨rest1, h2⟩ := p3
        rw [hre] at heq
        simp only [fatal_bind_ok, Except.ok.injEq, Prod.mk.injEq] at heq
        rw [← heq.1] at hmem
        rcases List.mem_cons.mp hmem with rfl | hm
        · exact foldPropOrSpread_fix j Hp Hf p0 h p h1 hp0
        · exact foldProps_fix j Hp Hf rest h1 rest1 h2 hre p hm

theorem foldJSXElement_fix (j : Jsx) (Hp : FixOS j j.pragma) (Hf : FixArg j j.pragma_frag) :
    ∀ el h el' h', foldJSXElement j el h = .ok (el', h') → InnerFixEl j el'
  | .mk sp (.mk name osp attrs sc) children, h, el', h', heq => by
    simp only [foldJSXElement] at heq
    cases hat : foldAttrsList j attrs h with
    | error e2 =>
      rw [hat] at heq
      simp only [fatal_bind_error] at heq
      exact Except.noConfusion heq
    | ok p1 =>
      obtain ⟨attrs1, h1⟩ := p1
      rw [hat] at heq
      simp only [fatal_bind_ok] at heq
      cases hch : foldChildren j children h1 with
      | error e2 =>
        rw [hch] at heq
        simp only [fatal_bind_error] at heq
        exact Except.noConfusion heq
      | ok p2 =>
        obtain ⟨children1, h2⟩ := p2
        rw [hch] at heq
        simp only [fatal_bind_ok, Except.ok.injEq, Prod.mk.injEq] at heq
        rw [← heq.1]
        exact ⟨foldAttrsList_fix j Hp Hf attrs h attrs1 h1 hat,
          foldChildren_fix j Hp Hf children h1 children1 h2 hch⟩

theorem foldOptExpr_fix (j : Jsx) (Hp : FixOS j j.pragma) (Hf : FixArg j j.pragma_frag) :
    ∀ v h v' h', foldOptExpr j v h = .ok (v', h') → ∀ e0, v' = some e0 → FixE j e0
  | none, h, v', h', heq, e0, hsome => by
    simp only [foldOptExpr, Except.ok.injEq, Prod.mk.injEq] at heq
    rw [← heq.1] at hsome
    exact Option.noConfusion hsome
  | some e, h, v', h', heq, e0, hsome => by
    simp only [foldOptExpr] at heq
    cases he : foldExpr j e h with
    | error e2 =>
      rw [he] at heq
      simp only [fatal_bind_error] at heq
      exact Except.noConfusion heq
    | ok p1 =>
      obtain ⟨e1, h1⟩ := p1
      rw [he] at heq
      simp only [fatal_bind_ok, Except.ok.injEq, Prod.mk.injEq] at heq
      rw [← heq.1] at hsome
      simp only [Option.some.injEq] at hsome
      rw [← hsome]
      exact foldExpr_fix j Hp Hf e h e1 h1 he

theorem foldAttrOrSpread_fix (j : Jsx) (Hp : FixOS j j.pragma) (Hf : FixArg j j.pragma_frag) :
    ∀ a h a' h', foldAttrOrSpread j a h = .ok (a', h') → InnerFixAttr j a'
  | .jsxAttr (.mk sp name value), h, a', h', heq => by
    simp only [foldAttrOrSpread] at heq
    cases hv : foldOptExpr j value h with
    | error e2 =>
      rw [hv] at heq
      simp only [fatal_bind_error] at heq
      exact Except.noConfusion heq
    | ok p1 =>
      obtain ⟨value1, h1⟩ := p1
      rw [hv] at heq
      simp only [fatal_bind_ok, Except.ok.injEq, Prod.mk.injEq] at heq
      rw [← heq.1]
      cases value1 with
      | none => trivial
      | some v1 =>
        show FixE j v1
        exact foldOptExpr_fix j Hp Hf value h (some v1) h1 hv v1 rfl
  | .spreadElement d e, h, a', h', heq => by
    simp only [foldAttrOrSpread] at heq
    cases he : foldExpr j e h with
    | error e2 =>
      rw [he] at heq
      simp only [fatal_bind_error] at heq
      exact Except.noConfusion heq
    | ok p1 =>
      obtain ⟨e1, h1⟩ := p1
      rw [he] at heq
      simp only [fatal_bind_ok, Except.ok.injEq, Prod.mk.injEq] at heq
      rw [← heq.1]
      show FixE j e1
      exact foldExpr_fix j Hp Hf e h e1 h1 he

theorem foldAttrsList_fix (j : Jsx) (Hp : FixOS j j.pragma) (Hf : FixArg j j.pragma_frag) :
    ∀ l h l' h', foldAttrsList j l h = .ok (l', h') → InnerFixAttrs j l'
  | [], h, l', h', heq => by
    simp only [foldAttrsList, Except.ok.injEq, Prod.mk.injEq] at heq
    rw [← heq.1]
    trivial
  | a0 :: rest, h, l', h', heq => by
    simp only [foldAttrsList] at heq
    cases ha0 : foldAttrOrSpread j a0 h with
    | error e2 =>
      rw [ha0] at heq
      simp only [fatal_bind_error] at heq
      exact Except.noConfusion heq
    | ok p1 =>
      obtain ⟨a1, h1⟩ := p1
      rw [ha0] at heq
      simp only [fatal_bind_ok] at heq
      cases hre : foldAttrsList j rest h1 with
      | error e2 =>
        rw [hre] at heq
        simp only [fatal_bind_error] at heq
        exact Except.noConfusion heq
      | ok p2 =>
        obtain ⟨rest1, h2⟩ := p2
        rw [hre] at heq
        simp only [fatal_bind_ok, Except.ok.injEq, Prod.mk.injEq] at heq
        rw [← heq.1]
        exact ⟨foldAttrOrSpread_fix j Hp Hf a0 h a1 h1 ha0,
          foldAttrsList_fix j Hp Hf rest h1 rest1 h2 hre⟩

theorem foldJSXFragment_fix (j : Jsx) (Hp : FixOS j j.pragma) (Hf : FixArg j j.pragma_frag) :
    ∀ f h f' h', foldJSXFragment j f h = .ok (f', h') → InnerFixChild j (.fragment f')
  | .mk sp children, h, f', h', heq => by
    simp only [foldJSXFragment] at heq
    cases hch : foldChildren j children h with
    | error e2 =>
      rw [hch] at heq
      simp only [fatal_bind_error] at heq
      exact Except.noConfusion heq
    | ok p1 =>
      obtain ⟨children1, h1⟩ := p1
      rw [hch] at heq
      simp only [fatal_bind_ok, Except.ok.injEq, Prod.mk.injEq] at heq
      rw [← heq.1]
      show InnerFixChildren j children1
      exact foldChildren_fix j Hp Hf children h children1 h1 hch

theorem foldChild_fix (j : Jsx) (Hp : FixOS j j.pragma) (Hf : FixArg j j.pragma_frag) :
    ∀ c h c' h', foldChild j c h = .ok (c', h') → InnerFixChild j c'
  | .jsxText t, h, c', h', heq => by
    simp only [foldChild, Except.ok.injEq, Prod.mk.injEq] at heq
    rw [← heq.1]
    trivial
  | .jsxExprContainer sp (.jsxEmptyExpr s2), h, c', h', heq => by
    simp only [foldChild, Except.ok.injEq, Prod.mk.injEq] at heq
    rw [← heq.1]
    trivial
  | .jsxExprContainer sp (.expr e), h, c', h', heq => by
    simp only [foldChild] at heq
    cases he : foldExpr j e h with
    | error e2 =>
      rw [he] at heq
      simp only [fatal_bind_error] at heq
      exact Except.noConfusion heq
    | ok p1 =>
      obtain ⟨e1, h1⟩ := p1
      rw [he] at heq
      simp only [fatal_bind_ok, Except.ok.injEq, Prod.mk.injEq] at heq
      rw [← heq.1]
      show FixE j e1
      exact foldExpr_fix j Hp Hf e h e1 h1 he
  | .jsxSpreadChild sp e, h, c', h', heq => by
    simp only [foldChild] at heq
    cases he : foldExpr j e h with
    | error e2 =>
      rw [he] at heq
      simp only [fatal_bind_error] at heq
      exact Except.noConfusion heq
    | ok p1 =>
      obtain ⟨e1, h1⟩ := p1
      rw [he] at heq
      simp only [fatal_bind_ok, Except.ok.injEq, Prod.mk.injEq] at heq
      rw [← heq.1]
      show FixE j e1
      exact foldExpr_fix j Hp Hf e h e1 h1 he
  | .element el, h, c', h', heq => by
    simp only [foldChild] at heq
    cases hel : foldJSXElement j el h with
    | error e2 =>
      rw [hel] at heq
      simp only [fatal_bind_error] at heq
      exact Except.noConfusion heq
    | ok p1 =>
      obtain ⟨el1, h1⟩ := p1
      rw [hel] at heq
      simp only [fatal_bind_ok, Except.ok.injEq, Prod.mk.injEq] at heq
      rw [← heq.1]
      show InnerFixEl j el1
      exact foldJSXElement_fix j Hp Hf el h el1 h1 hel
  | .fragment f, h, c', h', heq => by
    simp only [foldChild] at heq
    cases hfr : foldJSXFragment j f h with
    | error e2 =>
      rw [hfr] at heq
      simp only [fatal_bind_error] at heq
      exact Except.noConfusion heq
    | ok p1 =>
      obtain ⟨f1, h1⟩ := p1
      rw [hfr] at heq
      simp only [fatal_bind_ok, Except.ok.injEq, Prod.mk.injEq] at heq
      rw [← heq.1]
      exact foldJSXFragment_fix j Hp Hf f h f1 h1 hfr

theorem foldChildren_fix (j : Jsx) (Hp : FixOS j j.pragma) (Hf : FixArg j j.pragma_frag) :
    ∀ l h l' h', foldChildren j l h = .ok (l', h') → InnerFixChildren j l'
  | [], h, l', h', heq => by
    simp only [foldChildren, Except.ok.injEq, Prod.mk.injEq] at heq
    rw [← heq.1]
    trivial
  | c0 :: rest, h, l', h', heq => by
    simp only [foldChildren] at heq
    cases hc0 : foldChild j c0 h with
    | error e2 =>
      rw [hc0] at heq
      simp only [fatal_bind_error] at heq
      exact Except.noConfusion heq
    | ok p1 =>
      obtain ⟨c1, h1⟩ := p1
      rw [hc0] at heq
      simp only [fatal_bind_ok] at heq
      cases hre : foldChildren j rest h1 with
      | error e2 =>
        rw [hre] at heq
        simp only [fatal_bind_error] at heq
        exact Except.noConfusion heq
      | ok p2 =>
        obtain ⟨rest1, h2⟩ := p2
        rw [hre] at heq
        simp only [fatal_bind_ok, Except.ok.injEq, Prod.mk.injEq] at heq
        rw [← heq.1]
        exact ⟨foldChild_fix j Hp Hf c0 h c1 h1 hc0,
          foldChildren_fix j Hp Hf rest h1 rest1 h2 hre⟩
end

theorem foldModuleBody_fix (j : Jsx) (Hp : FixOS j j.pragma) (Hf : FixArg j j.pragma_frag) :
    ∀ b h b' h', foldModuleBody j b h = .ok (b', h') → ∀ e ∈ b', FixE j e
  | [], h, b', h', heq, e, hmem => by
    simp only [foldModuleBody, Except.ok.injEq, Prod.mk.injEq] at heq
    rw [← heq.1] at hmem
    cases hmem
  | e0 :: rest, h, b', h', heq, e, hmem => by
    simp only [foldModuleBody] at heq
    cases he0 : foldExpr j e0 h with
    | error e2 =>
      rw [he0] at heq
      simp only [fatal_bind_error] at heq
      exact Except.noConfusion heq
    | ok p1 =>
      obtain ⟨e1, h1⟩ := p1
      rw [he0] at heq
      simp only [fatal_bind_ok] at heq
      cases hre : foldModuleBody j rest h1 with
      | error e2 =>
        rw [hre] at heq
        simp only [fatal_bind_error] at heq
        exact Except.noConfusion heq
      | ok p2 =>
        obtain ⟨rest1, h2⟩ := p2
        rw [hre] at heq
        simp only [fatal_bind_ok, Except.ok.injEq, Prod.mk.injEq] at heq
        rw [← heq.1] at hmem
        rcases List.mem_cons.mp hmem with rfl | hm
        · exact foldExpr_fix j Hp Hf e0 h e h1 he0
        · exact foldModuleBody_fix j Hp Hf rest h1 rest1 h2 hre e hm

theorem foldModuleBody_id (j : Jsx) :
    ∀ b, (∀ e ∈ b, FixE j e) → ∀ h, foldModuleBody j b h = .ok (b, h)
  | [], _, _ => rfl
  | e0 :: rest, hf, h => by
    have he : ∀ h2, foldExpr j e0 h2 = .ok (e0, h2) := hf _ (List.mem_cons_self _ _)
    have hrest := foldModuleBody_id j rest fun e he2 => hf e (List.mem_cons_of_mem _ he2)
    simp only [foldModuleBody, he, hrest, fatal_bind_ok]

/-- C2 counterexample: the output of the pass can still contain JSX node
kinds — folding the empty fragment expression returns it unchanged, and
its top node is a JSX node kind. -/
theorem claim_c2_counterexample :
    foldExpr defaultJsxPass (.jsxFragment (.mk ⟨0, 5⟩ [])) ⟨false⟩ =
      .ok (.jsxFragment (.mk ⟨0, 5⟩ []), ⟨false⟩) ∧
    isJSXNode (.jsxFragment (.mk ⟨0, 5⟩ [])) = true :=
  ⟨rfl, rfl⟩

/-- C2 (amended): whenever the configured pragma and fragment-pragma
expressions are themselves pass fixpoints (true of the default
React.createElement and React.Fragment member expressions), the pass is
idempotent on expressions and on whole modules: if folding succeeds with
some output, folding that output again returns it unchanged with no
further Helper Registry writes, from any registry state.  However the
first fold's output can retain JSX node kinds: a top-level JSX fragment
expression survives folding, so the contains-no-JSX part of the original
claim fails. -/
theorem claim_c2_idempotent (j : Jsx) (Hp : FixOS j j.pragma) (Hf : FixArg j j.pragma_frag) :
    (∀ e h e' h', foldExpr j e h = .ok (e', h') →
      ∀ h2, foldExpr j e' h2 = .ok (e', h2)) ∧
    (∀ m h m' h', foldModule j m h = .ok (m', h') →
      ∀ h2, foldModule j m' h2 = .ok (m', h2)) := by
  constructor
  · intro e h e' h' heq h2
    exact foldExpr_fix j Hp Hf e h e' h' heq h2
  · intro m h m' h' heq h2
    obtain ⟨b⟩ := m
    simp only [foldModule] at heq
    cases hb : foldModuleBody j b h with
    | error e2 =>
      rw [hb] at heq
      simp only [fatal_bind_error] at heq
      exact Except.noConfusion heq
    | ok p1 =>
      obtain ⟨b1, h1⟩ := p1
      rw [hb] at heq
      simp only [fatal_bind_ok, Except.ok.injEq, Prod.mk.injEq] at heq
      rw [← heq.1]
      have hfix := foldModuleBody_fix j Hp Hf b h b1 h1 hb
      simp only [foldModule, foldModuleBody_id j b1 hfix, fatal_bind_ok]

/-- The element div (self closing, no attributes) of the C2 witness. -/
def elemExampleC2 : JSXElement :=
  .mk ⟨0, 6⟩ (.mk (.ident ⟨⟨1, 4⟩, "div"⟩) ⟨0, 6⟩ [] true) []

/-- The lowering of elemExampleC2 under the default pass. -/
def callExampleC2 : Expr :=
  .call ⟨0, 6⟩ (.expr reactCreateElement)
    [Expr.as_arg (.lit (.str ⟨1, 4⟩ "div" false)),
     Expr.as_arg (.lit (.null dummySpan))]

/-- C2 witness: the default pragma expressions are pass fixpoints, the
element div lowers to a React.createElement call, and folding that output
again returns it unchanged. -/
theorem claim_c2_witness :
    FixOS defaultJsxPass defaultJsxPass.pragma ∧
    FixArg defaultJsxPass defaultJsxPass.pragma_frag ∧
    foldExpr defaultJsxPass (.jsxElement elemExampleC2) ⟨false⟩ =
      .ok (callExampleC2, ⟨false⟩) ∧
    ∀ h2, foldExpr defaultJsxPass callExampleC2 h2 = .ok (callExampleC2, h2) :=
  ⟨fun _ => rfl, fun _ => rfl, rfl,
   (claim_c2_idempotent defaultJsxPass (fun _ => rfl) (fun _ => rfl)).1
     (.jsxElement elemExampleC2) ⟨false⟩ callExampleC2 ⟨false⟩ rfl⟩
